import Mathlib

/-!
Inchworm `FastaToDeBruijn`: the build orchestrator of the k-mer graph.

A shallow embedding of `src/Inchworm/src/FastaToDeBruijn.cpp`.

* A `std::string` is the list of its characters (`Str`).
* The driver's effects (standard output, standard error, every `Fasta_reader`
  construction, every call on a `DeBruijnGraph`) are recorded, in program
  order, in a list of `Event`s.
* The classes and helpers the driver only calls (`string_util::tokenize`,
  `contains_non_gatc`, `replace_nonGATC_chars_with_A`, `revcomp`,
  `DeBruijnGraph`, `ArgProcessor`, `Fasta_reader`) are not part of the
  exhibited source.  The driver is embedded over an arbitrary implementation
  of them (`Collaborators`, `ArgProcessor`, the file contents `fs`); the
  properties that depend on what they compute are stated over `specModel`,
  which follows the specification's description of them.
* `createGraphPerRecord` is the function under the schedule of a team of one
  thread (also the build without OpenMP): records are taken in file order.
  `createGraphPerRecord.parallel` is the function under an arbitrary team and
  schedule of its parallel region; what is stated of several records at once
  and depends on their order is stated over it.
* An out-of-range `operator[]` on a `std::vector` is undefined behaviour; the
  embedding stops there and reports it (`Outcome.ok = false`).
-/

namespace Inchworm

/-- A C++ `std::string`, as the sequence of its characters. -/
abbrev Str := List Char

/-- The text written by `std::endl`. -/
def endl : Str := [Char.ofNat 10]

/-- A FASTA record as the driver reads it: `get_accession()` and `get_sequence()`. -/
structure Fasta_entry where
  accession : Str
  sequence : Str
deriving DecidableEq

/-- The parsed command line (`ArgProcessor args(argc, argv)`): the three accessors the driver calls. -/
structure ArgProcessor where
  isArgSet : Str → Bool
  getStringVal : Str → Str
  getIntVal : Str → Int

/-- The helpers and the graph class the driver calls, over a graph type `G`. -/
structure Collaborators (G : Type) where
  /-- The call `string_util::tokenize(str, tokens, delimiters)`, returning `tokens`. -/
  tokenize : Str → Str → List Str
  contains_non_gatc : Str → Bool
  replace_nonGATC_chars_with_A : Str → Str
  revcomp : Str → Str
  /-- The constructor `DeBruijnGraph g(kmer_length)`. -/
  graph_new : Int → G
  add_sequence : G → Str → G
  toString : G → Str
  toChrysalisFormat : G → Int → Bool → Str

/-- One observable step of the driver. -/
inductive Event where
  | cerr (text : Str)
  | cout (text : Str)
  | omp_set_num_threads (num_threads : Int)
  | fasta_reader (fasta_filename : Str)
  | graph_new (kmer_length : Int)
  | add_sequence (seq : Str)
  | toString
  | toChrysalisFormat (component_id : Int) (sStrand : Bool)
deriving DecidableEq

/-- What a run did, and whether it ran to its end (`ok = false`: it reached
an out-of-range vector index, where the behaviour of the program is undefined). -/
structure Outcome where
  log : List Event
  ok : Bool
deriving DecidableEq

/-! ## The C library's `atoi` -/

/-- The C `isspace` in the "C" locale. -/
def isspace (c : Char) : Bool :=
  c.toNat = 32 || (9 ≤ c.toNat && c.toNat ≤ 13)

/-- Value of the longest leading run of decimal digits, continuing from `acc`. -/
def atoi.digits : Nat → Str → Nat
  | acc, [] => acc
  | acc, c :: cs =>
    if 48 ≤ c.toNat ∧ c.toNat ≤ 57 then atoi.digits (acc * 10 + (c.toNat - 48)) cs else acc

/-- Conversion of a `long` to `int` on a two's complement machine with 32-bit `int`. -/
def toInt32 (v : Int) : Int :=
  (v + 2 ^ 31) % 2 ^ 32 - 2 ^ 31

/-- The C `atoi`, as `(int) strtol(nptr, NULL, 10)`: leading white space is
skipped, an optional sign is read, then the longest run of digits; the value is
clamped to the range of a 64-bit `long` and converted to `int`. -/
def atoi (nptr : Str) : Int :=
  let s := nptr.dropWhile isspace
  let magnitude : Int := match s with
    | '-' :: rest => - (atoi.digits 0 rest : Int)
    | '+' :: rest => (atoi.digits 0 rest : Int)
    | _ => (atoi.digits 0 s : Int)
  toInt32 (max (-(2 ^ 63)) (min (2 ^ 63 - 1) magnitude))

/-! ## `usage` -/

/-- The function `usage` (lines 42-64). -/
def usage (_args : ArgProcessor) : Str :=
  endl ++ endl
  ++ "**Required".toList ++ endl
  ++ "  --fasta  <str>      ".toList ++ ":fasta file containing reads".toList ++ endl
  ++ "  -K  <int>           ".toList ++ ":kmer length".toList ++ endl
  ++ endl
  ++ " **Optional".toList ++ endl
  ++ "  -C <int>            ".toList ++ ":component identifier".toList ++ endl
  ++ "  --SS                ".toList ++ ":indicates strand-specific".toList ++ endl
  ++ "  --graph_per_record ".toList ++ ": write separate graph for each fasta entry.".toList ++ endl
  ++ "  --toString          ".toList ++ ": dump graph as descriptive output".toList ++ endl
  ++ "  --monitor <int>     ".toList ++ ": verbosity level".toList ++ endl
  ++ "  --threads <int>     ".toList ++ ": number of threads to utilize. ".toList ++ endl
  ++ endl

/-! ## `createGraphPerRecord` (lines 152-244) -/

section Driver

variable {G : Type}

/-- The loop over `seq_regions` of `createGraphPerRecord` (lines 197-223). -/
def createGraphPerRecord.regions (c : Collaborators G) (MONITOR : Nat) (sStrand : Bool) :
    G × List Event → List Str → G × List Event
  | st, [] => st
  | (g, log), region :: rest =>
    let seq_region :=
      if c.contains_non_gatc region then c.replace_nonGATC_chars_with_A region else region
    let log :=
      if MONITOR > 2 then
        log ++ [Event.cerr ("Adding sequence to graph: ".toList ++ seq_region ++ endl)]
      else log
    let g := c.add_sequence g seq_region
    let log := log ++ [Event.add_sequence seq_region]
    if !sStrand then
      let revseq := c.revcomp seq_region
      let log :=
        if MONITOR > 2 then
          log ++ [Event.cerr ("Adding sequence to graph: ".toList ++ revseq ++ endl)]
        else log
      let g := c.add_sequence g revseq
      createGraphPerRecord.regions c MONITOR sStrand (g, log ++ [Event.add_sequence revseq]) rest
    else
      createGraphPerRecord.regions c MONITOR sStrand (g, log) rest

/-- The graph `g` of one record at line 224 of `createGraphPerRecord`, with the
log extended by its construction (line 192) and the loop over its regions. -/
def createGraphPerRecord.build (c : Collaborators G) (MONITOR : Nat) (kmer_length : Int)
    (sStrand : Bool) (log : List Event) (sequence : Str) : G × List Event :=
  let g := c.graph_new kmer_length
  let seq_regions := c.tokenize sequence "X".toList
  createGraphPerRecord.regions c MONITOR sStrand (g, log ++ [Event.graph_new kmer_length])
    seq_regions

/-- The `while (true)` loop over the records of one reader (lines 166-235):
the pattern match is `hasNext()` and `getNext()`. -/
def createGraphPerRecord.entries (c : Collaborators G) (MONITOR : Nat) (kmer_length : Int)
    (sStrand : Bool) (args : ArgProcessor) : List Event → List Fasta_entry → Outcome
  | log, [] => { log := log, ok := true }
  | log, fe :: rest =>
    let accession := fe.accession
    let acc_pts := c.tokenize accession "_".toList
    match acc_pts[1]? with
    | none => { log := log, ok := false }
    | some acc_pts_1 =>
      let component_id := atoi acc_pts_1
      let sequence := fe.sequence
      let (g, log) := createGraphPerRecord.build c MONITOR kmer_length sStrand log sequence
      let log :=
        if args.isArgSet "--toString".toList then
          log ++ [Event.toString, Event.cout (c.toString g)]
        else
          log ++ [Event.toChrysalisFormat component_id sStrand,
                  Event.cout (c.toChrysalisFormat g component_id sStrand)]
      createGraphPerRecord.entries c MONITOR kmer_length sStrand args log rest

/-- The loop over `fasta_file_names` of `createGraphPerRecord` (lines 155-237);
`fs` gives the records of each file. -/
def createGraphPerRecord.files (c : Collaborators G) (fs : Str → List Fasta_entry)
    (MONITOR : Nat) (kmer_length : Int) (sStrand : Bool) (args : ArgProcessor) :
    List Event → List Str → Outcome
  | log, [] => { log := log, ok := true }
  | log, fasta_filename :: rest =>
    let log :=
      if MONITOR > 1 then log ++ [Event.cerr ("Parsing file: ".toList ++ fasta_filename ++ endl)]
      else log
    let log := log ++ [Event.fasta_reader fasta_filename]
    let r := createGraphPerRecord.entries c MONITOR kmer_length sStrand args log
      (fs fasta_filename)
    if r.ok then
      createGraphPerRecord.files c fs MONITOR kmer_length sStrand args r.log rest
    else r

/-- The function `createGraphPerRecord` when a single thread runs the loop. -/
def createGraphPerRecord (c : Collaborators G) (fs : Str → List Fasta_entry) (MONITOR : Nat)
    (fasta_file_names : List Str) (kmer_length : Int) (sStrand : Bool) (args : ArgProcessor) :
    Outcome :=
  createGraphPerRecord.files c fs MONITOR kmer_length sStrand args [] fasta_file_names

/-! ### The parallel region of `createGraphPerRecord` (lines 165-235)

The `while (true)` loop runs under `#pragma omp parallel`: every thread of the
team executes it.  Taking a record (lines 171-176) and serializing a graph to
standard output (lines 225-232) are `critical` sections; the work in between
(lines 182-223) is private to the thread: it touches only the thread's own
record and graph, and is logged as one move.  A schedule names, step by step,
the thread that moves next; the region ends at the barrier, when every thread
has left the loop. -/

/-- Where one thread of the team stands in the loop of lines 166-235. -/
inductive Worker (G : Type) where
  /-- At line 171, before the critical section that takes a record. -/
  | ready
  /-- Holding the record `fe` (`got_fe` is true), lines 182-223 still to run. -/
  | claimed (fe : Fasta_entry)
  /-- At line 225, with its private graph `g` built and `component_id` derived. -/
  | built (g : G) (component_id : Int)
  /-- Out of the loop (the `break` of line 179), waiting at the end of the region. -/
  | done

/-- The state of the parallel region for one file: what `fasta_reader` has
left, the threads of the team, the log, and whether the behaviour is still defined. -/
structure Region (G : Type) where
  reader : List Fasta_entry
  workers : List (Worker G)
  log : List Event
  ok : Bool

/-- One move of thread `t` (`none`: the thread does not exist, has left the
loop, or the behaviour of the program is already undefined).
A ready thread runs the critical section of lines 171-176 and then either
leaves (line 179) or holds a record; a thread holding a record runs lines
182-223 on its private graph; a thread with a built graph runs the
critical section of lines 225-232 and goes back to the head of the loop. -/
def createGraphPerRecord.step (c : Collaborators G) (MONITOR : Nat) (kmer_length : Int)
    (sStrand : Bool) (args : ArgProcessor) (t : Nat) (s : Region G) : Option (Region G) :=
  if s.ok then
    match s.workers[t]? with
    | none => none
    | some Worker.done => none
    | some Worker.ready =>
      match s.reader with
      | [] => some { s with workers := s.workers.set t Worker.done }
      | fe :: rest =>
        some { s with reader := rest, workers := s.workers.set t (Worker.claimed fe) }
    | some (Worker.claimed fe) =>
      let accession := fe.accession
      let acc_pts := c.tokenize accession "_".toList
      match acc_pts[1]? with
      | none => some { s with ok := false }
      | some acc_pts_1 =>
        let component_id := atoi acc_pts_1
        let sequence := fe.sequence
        let (g, log) := createGraphPerRecord.build c MONITOR kmer_length sStrand s.log sequence
        some { s with log := log, workers := s.workers.set t (Worker.built g component_id) }
    | some (Worker.built g component_id) =>
      let log :=
        if args.isArgSet "--toString".toList then
          s.log ++ [Event.toString, Event.cout (c.toString g)]
        else
          s.log ++ [Event.toChrysalisFormat component_id sStrand,
                    Event.cout (c.toChrysalisFormat g component_id sStrand)]
      some { s with log := log, workers := s.workers.set t Worker.ready }
  else none

/-- The moves of a schedule, in order (`none`: the schedule names a thread that cannot move). -/
def createGraphPerRecord.run (c : Collaborators G) (MONITOR : Nat) (kmer_length : Int)
    (sStrand : Bool) (args : ArgProcessor) : List Nat → Region G → Option (Region G)
  | [], s => some s
  | t :: schedule, s =>
    match createGraphPerRecord.step c MONITOR kmer_length sStrand args t s with
    | none => none
    | some s' => createGraphPerRecord.run c MONITOR kmer_length sStrand args schedule s'

/-- Whether a thread has left the loop. -/
def Worker.isDone : Worker G → Bool
  | Worker.done => true
  | _ => false

/-- The region as it is entered for a file: the reader holds the file's
records and every thread of the team is at the head of the loop. -/
def createGraphPerRecord.enter (records : List Fasta_entry) (team : Nat) (log : List Event) :
    Region G :=
  { reader := records, workers := List.replicate team Worker.ready, log := log, ok := true }

/-- The loop over `fasta_file_names` of `createGraphPerRecord` (lines 155-237)
with a team and a schedule for the parallel region of each file.  The region
ends when every thread has left the loop (the barrier at its end); `none`: the
plan is not an execution (no team or schedule for a file, an empty team, a
schedule that names a thread that cannot move or that stops before the barrier). -/
def createGraphPerRecord.parallelFiles (c : Collaborators G) (fs : Str → List Fasta_entry)
    (MONITOR : Nat) (kmer_length : Int) (sStrand : Bool) (args : ArgProcessor) :
    List Event → List Str → List (Nat × List Nat) → Option Outcome
  | log, [], _ => some { log := log, ok := true }
  | _, _ :: _, [] => none
  | log, fasta_filename :: rest, (team, schedule) :: plan =>
    let log :=
      if MONITOR > 1 then log ++ [Event.cerr ("Parsing file: ".toList ++ fasta_filename ++ endl)]
      else log
    let log := log ++ [Event.fasta_reader fasta_filename]
    if team = 0 then none
    else
      match createGraphPerRecord.run c MONITOR kmer_length sStrand args schedule
          (createGraphPerRecord.enter (fs fasta_filename) team log) with
      | none => none
      | some s =>
        if s.ok then
          if s.workers.all Worker.isDone then
            createGraphPerRecord.parallelFiles c fs MONITOR kmer_length sStrand args s.log
              rest plan
          else none
        else some { log := s.log, ok := false }

/-- The function `createGraphPerRecord` under a plan: one team size and one
schedule for each file. -/
def createGraphPerRecord.parallel (c : Collaborators G) (fs : Str → List Fasta_entry)
    (MONITOR : Nat) (fasta_file_names : List Str) (kmer_length : Int) (sStrand : Bool)
    (args : ArgProcessor) (plan : List (Nat × List Nat)) : Option Outcome :=
  createGraphPerRecord.parallelFiles c fs MONITOR kmer_length sStrand args [] fasta_file_names
    plan

/-! ## `constructDeBruijnGraph` (lines 247-316) -/

/-- The loop over `seq_regions` of `constructDeBruijnGraph` (lines 271-297). -/
def constructDeBruijnGraph.regions (c : Collaborators G) (MONITOR : Nat) (sStrand : Bool) :
    G × List Event → List Str → G × List Event
  | st, [] => st
  | (g, log), region :: rest =>
    let seq_region :=
      if c.contains_non_gatc region then c.replace_nonGATC_chars_with_A region else region
    let log :=
      if MONITOR > 2 then
        log ++ [Event.cerr ("Adding sequence to graph: ".toList ++ seq_region ++ endl)]
      else log
    let g := c.add_sequence g seq_region
    let log := log ++ [Event.add_sequence seq_region]
    if !sStrand then
      let revseq := c.revcomp seq_region
      let log :=
        if MONITOR > 2 then
          log ++ [Event.cerr ("Adding sequence to graph: ".toList ++ revseq ++ endl)]
        else log
      let g := c.add_sequence g revseq
      constructDeBruijnGraph.regions c MONITOR sStrand (g, log ++ [Event.add_sequence revseq]) rest
    else
      constructDeBruijnGraph.regions c MONITOR sStrand (g, log) rest

/-- The loop `while (fasta_reader.hasNext())` of `constructDeBruijnGraph` (lines 263-298). -/
def constructDeBruijnGraph.entries (c : Collaborators G) (MONITOR : Nat) (sStrand : Bool) :
    G × List Event → List Fasta_entry → G × List Event
  | st, [] => st
  | st, fe :: rest =>
    let sequence := fe.sequence
    let seq_regions := c.tokenize sequence "X".toList
    constructDeBruijnGraph.entries c MONITOR sStrand
      (constructDeBruijnGraph.regions c MONITOR sStrand st seq_regions) rest

/-- The loop over `fasta_file_names` of `constructDeBruijnGraph` (lines 252-299). -/
def constructDeBruijnGraph.files (c : Collaborators G) (fs : Str → List Fasta_entry)
    (MONITOR : Nat) (sStrand : Bool) : G × List Event → List Str → G × List Event
  | st, [] => st
  | (g, log), fasta_filename :: rest =>
    let log :=
      if MONITOR > 1 then log ++ [Event.cerr ("Parsing file: ".toList ++ fasta_filename ++ endl)]
      else log
    let log := log ++ [Event.fasta_reader fasta_filename]
    constructDeBruijnGraph.files c fs MONITOR sStrand
      (constructDeBruijnGraph.entries c MONITOR sStrand (g, log) (fs fasta_filename)) rest

/-- The function `constructDeBruijnGraph`: the returned graph and the log. -/
def constructDeBruijnGraph (c : Collaborators G) (fs : Str → List Fasta_entry) (MONITOR : Nat)
    (fasta_file_names : List Str) (kmer_length : Int) (component_val : Int) (sStrand : Bool)
    (args : ArgProcessor) : G × List Event :=
  let g := c.graph_new kmer_length
  let (g, log) := constructDeBruijnGraph.files c fs MONITOR sStrand
    (g, [Event.graph_new kmer_length]) fasta_file_names
  if args.isArgSet "--toString".toList then
    (g, log ++ [Event.toString, Event.cout (c.toString g)])
  else
    (g, log ++ [Event.toChrysalisFormat component_val sStrand,
                Event.cout (c.toChrysalisFormat g component_val sStrand)])

/-! ## `fastaToDeBruijn` (lines 68-149) -/

/-- The function `fastaToDeBruijn`: the returned status (`none` when the run
reached undefined behaviour) and the log.  `IRKE_COMMON::MONITOR` is an
`unsigned int`, initially 0.  The collaborators are total functions here, so
the `catch` clause of lines 140-143 is never entered. -/
def fastaToDeBruijn (c : Collaborators G) (fs : Str → List Fasta_entry) (args : ArgProcessor) :
    Option Int × List Event :=
  if args.isArgSet "--help".toList || args.isArgSet "-h".toList
      || !(args.isArgSet "--fasta".toList && args.isArgSet "-K".toList
            && (args.isArgSet "-C".toList || args.isArgSet "--graph_per_record".toList)) then
    (some 1, [Event.cerr (usage args ++ endl ++ endl)])
  else
    let fasta_filename := args.getStringVal "--fasta".toList
    let kmer_length := args.getIntVal "-K".toList
    let sStrand := args.isArgSet "--SS".toList
    let MONITOR : Nat :=
      if args.isArgSet "--monitor".toList then
        (args.getIntVal "--monitor".toList % 2 ^ 32).toNat
      else 0
    let log :=
      if args.isArgSet "--threads".toList then
        [Event.omp_set_num_threads (args.getIntVal "--threads".toList)]
      else []
    let fasta_filenames :=
      if ',' ∈ fasta_filename then c.tokenize fasta_filename ",".toList else [fasta_filename]
    if args.isArgSet "--graph_per_record".toList then
      let r := createGraphPerRecord c fs MONITOR fasta_filenames kmer_length sStrand args
      (if r.ok then some 0 else none, log ++ r.log)
    else
      let component_val := args.getIntVal "-C".toList
      let r := constructDeBruijnGraph c fs MONITOR fasta_filenames kmer_length component_val
        sStrand args
      (some 0, log ++ r.2)

end Driver

/-! ## The collaborators, as the specification describes them -/

/-- Modelled from the spec: `string_util::tokenize` (string_util.hpp is not
exhibited), the bundle splitter of section 4.2: it splits strictly on the
delimiter characters, drops them, keeps the order of the pieces, and keeps an
empty piece where two delimiters are adjacent. -/
def tokenize : Str → Str → List Str
  | [], _ => [[]]
  | ch :: rest, delimiters =>
    if ch ∈ delimiters then [] :: tokenize rest delimiters
    else
      match tokenize rest delimiters with
      | [] => [[ch]]
      | token :: tokens => (ch :: token) :: tokens

/-- Modelled from the spec: the nucleotide alphabet A, C, G, T (sequenceUtil.hpp is not
exhibited). -/
def isGATC (ch : Char) : Bool :=
  ch = 'G' || ch = 'A' || ch = 'T' || ch = 'C'

/-- Modelled from the spec: `contains_non_gatc` (sequenceUtil.hpp is not
exhibited): whether some character is outside the alphabet A, C, G, T. -/
def contains_non_gatc (str : Str) : Bool :=
  str.any (fun ch => !isGATC ch)

/-- Modelled from the spec: `replace_nonGATC_chars_with_A` (sequenceUtil.hpp is
not exhibited), the sanitizer of section 1: every character outside the
alphabet A, C, G, T becomes the character A. -/
def replace_nonGATC_chars_with_A (str : Str) : Str :=
  str.map (fun ch => if isGATC ch then ch else 'A')

/-- Modelled from the spec: the complement of a base (sequenceUtil.hpp is not
exhibited), A with T and C with G (section 4.3); the specification says nothing
of other characters, which are left as they are. -/
def complement (ch : Char) : Char :=
  if ch = 'A' then 'T' else if ch = 'T' then 'A'
  else if ch = 'C' then 'G' else if ch = 'G' then 'C' else ch

/-- Modelled from the spec: `revcomp` (sequenceUtil.hpp is not exhibited), the
canonicalizer of section 4.3: it reverses the order of the symbols and
complements each base. -/
def revcomp (str : Str) : Str :=
  (str.map complement).reverse

/-- Modelled from the spec: the class `DeBruijnGraph` (DeBruijnGraph.hpp is not
exhibited), the data model of section 3: the fixed k, the nodes (distinct
k-mers with their counts) and the directed edges with their counts, each in
order of first insertion. -/
structure DeBruijnGraph where
  kmer_length : Int
  nodes : List (Str × Nat)
  edges : List ((Str × Str) × Nat)
deriving DecidableEq

/-- Modelled from the spec: the accumulation of counts in `DeBruijnGraph`
(DeBruijnGraph.hpp is not exhibited): add one to the count of `key`, inserting
it with count 1 when absent (section 3: counts accumulate, never overwrite). -/
def increment {κ : Type} [DecidableEq κ] (key : κ) : List (κ × Nat) → List (κ × Nat)
  | [] => [(key, 1)]
  | (key', n) :: rest =>
    if key' = key then (key', n + 1) :: rest else (key', n) :: increment key rest

/-- The count of `key` in a table of counts (0 when absent). -/
def lookup {κ : Type} [DecidableEq κ] (key : κ) : List (κ × Nat) → Nat
  | [] => 0
  | (key', n) :: rest => if key' = key then n else lookup key rest

/-- The substring `seq.substr(i, k)`. -/
def substr (seq : Str) (i k : Nat) : Str :=
  (seq.drop i).take k

/-- Modelled from the spec: the constructor `DeBruijnGraph(kmer_length)`: an empty graph with the given k. -/
def DeBruijnGraph.new (kmer_length : Int) : DeBruijnGraph :=
  { kmer_length := kmer_length, nodes := [], edges := [] }

/-- Modelled from the spec: what `DeBruijnGraph::add_sequence` (not exhibited)
does at position `i` of `seq` (section 4.1): the node of the k-mer at `i` is
incremented and, when a k-mer also exists at `i+1`, the edge between the two. -/
def DeBruijnGraph.add_position (k : Nat) (seq : Str) (g : DeBruijnGraph) (i : Nat) :
    DeBruijnGraph :=
  let g := { g with nodes := increment (substr seq i k) g.nodes }
  if i + 1 + k ≤ seq.length then
    { g with edges := increment (substr seq i k, substr seq (i + 1) k) g.edges }
  else g

/-- Modelled from the spec: `DeBruijnGraph::add_sequence` (section 4.1): for
every position i of `seq` at which a full substring of length k exists, the
count of the node of the k-mer at i is incremented and, when a k-mer also
exists at position i+1, the count of the edge between the two; a sequence
shorter than k adds nothing, and neither does any sequence when k is not
positive. -/
def DeBruijnGraph.add_sequence (g : DeBruijnGraph) (seq : Str) : DeBruijnGraph :=
  if g.kmer_length ≤ 0 then g
  else
    let k := g.kmer_length.toNat
    (List.range (seq.length + 1 - k)).foldl (DeBruijnGraph.add_position k seq) g

/-- The count of the node of k-mer `x` (0 when there is no such node). -/
def DeBruijnGraph.nodeCount (g : DeBruijnGraph) (x : Str) : Nat :=
  lookup x g.nodes

/-- The count of the edge from `x` to `y` (0 when there is no such edge). -/
def DeBruijnGraph.edgeCount (g : DeBruijnGraph) (x y : Str) : Nat :=
  lookup (x, y) g.edges

/-- The collaborators as the specification describes them.  The specification
leaves the two text layouts open, so they stay parameters. -/
def specModel (toString : DeBruijnGraph → Str)
    (toChrysalisFormat : DeBruijnGraph → Int → Bool → Str) : Collaborators DeBruijnGraph where
  tokenize := tokenize
  contains_non_gatc := contains_non_gatc
  replace_nonGATC_chars_with_A := replace_nonGATC_chars_with_A
  revcomp := revcomp
  graph_new := DeBruijnGraph.new
  add_sequence := DeBruijnGraph.add_sequence
  toString := toString
  toChrysalisFormat := toChrysalisFormat

/-! ## Vocabulary of the properties -/

/-- The arguments of the `add_sequence` calls of a log, in call order. -/
def addedSequences (log : List Event) : List Str :=
  log.filterMap (fun e => match e with
    | Event.add_sequence seq => some seq
    | _ => none)

/-- The `DeBruijnGraph` constructions of a log (each with its k). -/
def graphsBuilt (log : List Event) : List Int :=
  log.filterMap (fun e => match e with
    | Event.graph_new k => some k
    | _ => none)

/-- The serialization calls of a log (`toString` and `toChrysalisFormat`), in call order. -/
def serializations (log : List Event) : List Event :=
  log.filter (fun e => match e with
    | Event.toString => true
    | Event.toChrysalisFormat _ _ => true
    | _ => false)

/-- The blocks written to standard output, in order. -/
def standardOutput (log : List Event) : List Str :=
  log.filterMap (fun e => match e with
    | Event.cout text => some text
    | _ => none)

/-- The texts written to standard error, in order. -/
def standardError (log : List Event) : List Str :=
  log.filterMap (fun e => match e with
    | Event.cerr text => some text
    | _ => none)

/-- The files opened (`Fasta_reader` constructions), in order. -/
def filesOpened (log : List Event) : List Str :=
  log.filterMap (fun e => match e with
    | Event.fasta_reader name => some name
    | _ => none)

/-- The number of positions of `seq` at which `x` occurs as a substring of length `k`. -/
def occurrences (k : Nat) (x : Str) (seq : Str) : Nat :=
  (List.range (seq.length + 1)).countP
    (fun i => decide (i + k ≤ seq.length ∧ substr seq i k = x))

/-- The number of positions `i` of `seq` such that `x` occurs at `i` and `y` at `i+1`
(both as substrings of length `k`). -/
def adjacencies (k : Nat) (x y : Str) (seq : Str) : Nat :=
  (List.range (seq.length + 1)).countP
    (fun i => decide (i + 1 + k ≤ seq.length ∧ substr seq i k = x ∧ substr seq (i + 1) k = y))

section Vocabulary

variable {G : Type}

/-- The bundle as it reaches the graph (lines 201-203 and 275-277). -/
def normalize (c : Collaborators G) (bundle : Str) : Str :=
  if c.contains_non_gatc bundle then c.replace_nonGATC_chars_with_A bundle else bundle

/-- What one bundle should add: the normalized bundle and, unless strand-specific,
its reverse complement. -/
def bundleCalls (c : Collaborators G) (sStrand : Bool) (bundle : Str) : List Str :=
  if sStrand then [normalize c bundle]
  else [normalize c bundle, c.revcomp (normalize c bundle)]

/-- What one record should add: its bundles in order. -/
def recordCalls (c : Collaborators G) (sStrand : Bool) (sequence : Str) : List Str :=
  (c.tokenize sequence "X".toList).flatMap (bundleCalls c sStrand)

/-- What a whole run should add: files in order, records in order, bundles in order. -/
def mergedCalls (c : Collaborators G) (fs : Str → List Fasta_entry) (sStrand : Bool)
    (fasta_file_names : List Str) : List Str :=
  fasta_file_names.flatMap (fun name =>
    (fs name).flatMap (fun fe => recordCalls c sStrand fe.sequence))

/-- The graph of one record taken alone: a fresh graph to which the record's
bundles are added. -/
def recordGraph (c : Collaborators G) (kmer_length : Int) (sStrand : Bool) (sequence : Str) : G :=
  (recordCalls c sStrand sequence).foldl c.add_sequence (c.graph_new kmer_length)

/-- The serialization of the graph of one record taken alone, with the
identifier `component_id`. -/
def recordBlock (c : Collaborators G) (kmer_length : Int) (sStrand : Bool) (args : ArgProcessor)
    (component_id : Int) (sequence : Str) : Str :=
  if args.isArgSet "--toString".toList then
    c.toString (recordGraph c kmer_length sStrand sequence)
  else
    c.toChrysalisFormat (recordGraph c kmer_length sStrand sequence) component_id sStrand

/-- The second underscore-separated token of an accession, when there is one. -/
def secondToken (c : Collaborators G) (accession : Str) : Option Str :=
  (c.tokenize accession "_".toList)[1]?

/-- Events that touch neither a graph's lifetime, nor the output, nor the files. -/
def Quiet (evs : List Event) : Prop :=
  graphsBuilt evs = [] ∧ serializations evs = [] ∧ standardOutput evs = [] ∧ filesOpened evs = []

/-- The events of one turn of the region loop (the same in both functions). -/
def bundleEvents (c : Collaborators G) (MONITOR : Nat) (sStrand : Bool) (region : Str) :
    List Event :=
  (if MONITOR > 2 then
      [Event.cerr ("Adding sequence to graph: ".toList ++ normalize c region ++ endl)]
    else [])
  ++ [Event.add_sequence (normalize c region)]
  ++ (if sStrand then []
      else
        (if MONITOR > 2 then
          [Event.cerr ("Adding sequence to graph: ".toList
            ++ c.revcomp (normalize c region) ++ endl)]
        else [])
        ++ [Event.add_sequence (c.revcomp (normalize c region))])

/-- The events at the head of one turn of the file loop (the same in both functions). -/
def fileEvents (MONITOR : Nat) (name : Str) : List Event :=
  (if MONITOR > 1 then [Event.cerr ("Parsing file: ".toList ++ name ++ endl)] else [])
  ++ [Event.fasta_reader name]

/-- The component identifier that line 187 derives from an accession with a second token. -/
def componentId (c : Collaborators G) (accession : Str) : Int :=
  atoi ((secondToken c accession).getD [])

/-- The serialization call made for a graph: `toString` when `--toString` is
set, else `toChrysalisFormat` with the given identifier and strand flag. -/
def serializationCall (args : ArgProcessor) (component_id : Int) (sStrand : Bool) : Event :=
  if args.isArgSet "--toString".toList then Event.toString
  else Event.toChrysalisFormat component_id sStrand

end Vocabulary

/-! ## Vocabulary of the parallel region -/

section Parallel

variable {G : Type}

/-- What a thread with a built graph appends to the log when it serializes it (lines 225-232). -/
def emitEvents (c : Collaborators G) (args : ArgProcessor) (sStrand : Bool) (g : G)
    (component_id : Int) : List Event :=
  if args.isArgSet "--toString".toList then [Event.toString, Event.cout (c.toString g)]
  else [Event.toChrysalisFormat component_id sStrand,
        Event.cout (c.toChrysalisFormat g component_id sStrand)]

/-- The moves of the parallel region as a relation between states: a ready
thread leaves or takes a record, a thread holding a record stops the run at an
accession without second token or builds its graph, a thread with a built
graph serializes it. -/
inductive createGraphPerRecord.Step (c : Collaborators G) (MONITOR : Nat) (kmer_length : Int)
    (sStrand : Bool) (args : ArgProcessor) : Region G → Region G → Prop where
  | leave (before after : List (Worker G)) (log : List Event) :
    createGraphPerRecord.Step c MONITOR kmer_length sStrand args
      { reader := [], workers := before ++ Worker.ready :: after, log := log, ok := true }
      { reader := [], workers := before ++ Worker.done :: after, log := log, ok := true }
  | take (fe : Fasta_entry) (rest : List Fasta_entry) (before after : List (Worker G))
      (log : List Event) :
    createGraphPerRecord.Step c MONITOR kmer_length sStrand args
      { reader := fe :: rest, workers := before ++ Worker.ready :: after, log := log, ok := true }
      { reader := rest, workers := before ++ Worker.claimed fe :: after, log := log, ok := true }
  | crash (fe : Fasta_entry) (reader : List Fasta_entry) (before after : List (Worker G))
      (log : List Event) (h : secondToken c fe.accession = none) :
    createGraphPerRecord.Step c MONITOR kmer_length sStrand args
      { reader := reader, workers := before ++ Worker.claimed fe :: after, log := log,
        ok := true }
      { reader := reader, workers := before ++ Worker.claimed fe :: after, log := log,
        ok := false }
  | work (fe : Fasta_entry) (reader : List Fasta_entry) (before after : List (Worker G))
      (log : List Event) (token : Str) (h : secondToken c fe.accession = some token) :
    createGraphPerRecord.Step c MONITOR kmer_length sStrand args
      { reader := reader, workers := before ++ Worker.claimed fe :: after, log := log,
        ok := true }
      { reader := reader,
        workers := before ++ Worker.built
          (createGraphPerRecord.build c MONITOR kmer_length sStrand log fe.sequence).1
          (atoi token) :: after,
        log := (createGraphPerRecord.build c MONITOR kmer_length sStrand log fe.sequence).2,
        ok := true }
  | emit (g : G) (component_id : Int) (reader : List Fasta_entry)
      (before after : List (Worker G)) (log : List Event) :
    createGraphPerRecord.Step c MONITOR kmer_length sStrand args
      { reader := reader, workers := before ++ Worker.built g component_id :: after, log := log,
        ok := true }
      { reader := reader, workers := before ++ Worker.ready :: after,
        log := log ++ emitEvents c args sStrand g component_id, ok := true }

/-- How many moves a thread still has before it leaves, not counting the records it will take. -/
def Worker.weight : Worker G → Nat
  | Worker.done => 0
  | Worker.ready => 1
  | Worker.built _ _ => 2
  | Worker.claimed _ => 3

/-- The number of moves left in a region: three for each record still to be
taken (take, build, serialize) and the moves each thread has left. -/
def Region.movesLeft (s : Region G) : Nat :=
  3 * s.reader.length + (s.workers.map Worker.weight).sum

/-- What a thread still has to contribute to an observation of the log. -/
def Worker.owes {α : Type} (ofRecord : Fasta_entry → Multiset α)
    (ofGraph : G → Int → Multiset α) : Worker G → Multiset α
  | Worker.claimed fe => ofRecord fe
  | Worker.built g component_id => ofGraph g component_id
  | _ => 0

/-- An observation of the log together with what the threads and the records
not yet taken still have to contribute to it. -/
def Region.account {α : Type} (observe : List Event → Multiset α)
    (ofRecord : Fasta_entry → Multiset α) (ofGraph : G → Int → Multiset α) (s : Region G) :
    Multiset α :=
  observe s.log + (s.workers.map (Worker.owes ofRecord ofGraph)).sum
    + (s.reader.map ofRecord).sum

/-- Every record still in the region has an accession with a second token, and
once a thread has left the loop the reader is empty. -/
def Region.Sound (c : Collaborators G) (s : Region G) : Prop :=
  (∀ fe ∈ s.reader, secondToken c fe.accession ≠ none)
  ∧ (∀ fe, Worker.claimed fe ∈ s.workers → secondToken c fe.accession ≠ none)
  ∧ (Worker.done ∈ s.workers → s.reader = [])

end Parallel

/-! ## Concrete collaborators and command lines, to evaluate the driver on examples -/

/-- The decimal digits of a natural number, most significant first (`fuel` bounds the number of digits). -/
def decimalNat : Nat → Nat → Str
  | 0, n => [Char.ofNat (48 + n % 10)]
  | fuel + 1, n =>
    if n < 10 then [Char.ofNat (48 + n)]
    else decimalNat fuel (n / 10) ++ [Char.ofNat (48 + n % 10)]

/-- The decimal representation of an integer: a minus sign for a negative
number, then the digits of its absolute value without leading zeros. -/
def decimal (n : Int) : Str :=
  (if n < 0 then ['-'] else []) ++ decimalNat n.natAbs n.natAbs

/-- A descriptive dump used to evaluate examples (the real layout is not
exhibited): one line per node, then one line per edge. -/
def exampleToString (g : DeBruijnGraph) : Str :=
  g.nodes.flatMap (fun node => node.1 ++ Char.ofNat 32 :: decimal node.2 ++ endl)
  ++ g.edges.flatMap (fun edge =>
      edge.1.1 ++ '>' :: edge.1.2 ++ Char.ofNat 32 :: decimal edge.2 ++ endl)

/-- A structured payload used to evaluate examples (the real layout is not
exhibited): the component identifier, the strand flag, then the dump. -/
def exampleToChrysalisFormat (g : DeBruijnGraph) (component_id : Int) (sStrand : Bool) : Str :=
  "Component ".toList ++ decimal component_id ++ (if sStrand then " SS".toList else [])
  ++ endl ++ exampleToString g

/-- The collaborators of the specification with the two example layouts. -/
def exampleModel : Collaborators DeBruijnGraph :=
  specModel exampleToString exampleToChrysalisFormat

/-- A parsed command line given by its options and their values. -/
def exampleArgs (options : List (Str × Str)) : ArgProcessor where
  isArgSet := fun name => decide (name ∈ options.map Prod.fst)
  getStringVal := fun name => ((options.find? (fun o => decide (o.1 = name))).map Prod.snd).getD []
  getIntVal := fun name =>
    atoi (((options.find? (fun o => decide (o.1 = name))).map Prod.snd).getD [])

/-- A file system with the single file `reads.fa` holding the given records. -/
def exampleFiles (records : List Fasta_entry) : Str → List Fasta_entry :=
  fun name => if name = "reads.fa".toList then records else []

/-! ## Properties of the driver, for any collaborators -/

section DriverFacts

variable {G : Type}

theorem addedSequences_append (l₁ l₂ : List Event) :
    addedSequences (l₁ ++ l₂) = addedSequences l₁ ++ addedSequences l₂ := by
  simp [addedSequences]

theorem graphsBuilt_append (l₁ l₂ : List Event) :
    graphsBuilt (l₁ ++ l₂) = graphsBuilt l₁ ++ graphsBuilt l₂ := by
  simp [graphsBuilt]

theorem serializations_append (l₁ l₂ : List Event) :
    serializations (l₁ ++ l₂) = serializations l₁ ++ serializations l₂ := by
  simp [serializations]

theorem standardOutput_append (l₁ l₂ : List Event) :
    standardOutput (l₁ ++ l₂) = standardOutput l₁ ++ standardOutput l₂ := by
  simp [standardOutput]

theorem filesOpened_append (l₁ l₂ : List Event) :
    filesOpened (l₁ ++ l₂) = filesOpened l₁ ++ filesOpened l₂ := by
  simp [filesOpened]

theorem quiet_nil : Quiet [] := by
  simp [Quiet, graphsBuilt, serializations, standardOutput, filesOpened]

theorem quiet_append {l₁ l₂ : List Event} (h₁ : Quiet l₁) (h₂ : Quiet l₂) : Quiet (l₁ ++ l₂) := by
  obtain ⟨a₁, b₁, c₁, d₁⟩ := h₁
  obtain ⟨a₂, b₂, c₂, d₂⟩ := h₂
  simp [Quiet, graphsBuilt_append, serializations_append, standardOutput_append,
    filesOpened_append, *]

theorem quiet_cerr (text : Str) : Quiet [Event.cerr text] := by
  simp [Quiet, graphsBuilt, serializations, standardOutput, filesOpened]

theorem quiet_add_sequence (seq : Str) : Quiet [Event.add_sequence seq] := by
  simp [Quiet, graphsBuilt, serializations, standardOutput, filesOpened]

theorem addedSequences_bundleEvents (c : Collaborators G) (MONITOR : Nat) (sStrand : Bool)
    (region : Str) :
    addedSequences (bundleEvents c MONITOR sStrand region) = bundleCalls c sStrand region := by
  cases sStrand <;> by_cases hm : MONITOR > 2 <;>
    simp [bundleEvents, bundleCalls, addedSequences, hm]

theorem quiet_bundleEvents (c : Collaborators G) (MONITOR : Nat) (sStrand : Bool)
    (region : Str) : Quiet (bundleEvents c MONITOR sStrand region) := by
  cases sStrand <;> by_cases hm : MONITOR > 2 <;>
    simp [bundleEvents, Quiet, graphsBuilt, serializations, standardOutput,
      filesOpened, hm]

theorem perRecord_regions_cons (c : Collaborators G) (MONITOR : Nat) (sStrand : Bool)
    (region : Str) (rest : List Str) (g : G) (log : List Event) :
    createGraphPerRecord.regions c MONITOR sStrand (g, log) (region :: rest)
      = createGraphPerRecord.regions c MONITOR sStrand
          ((bundleCalls c sStrand region).foldl c.add_sequence g,
            log ++ bundleEvents c MONITOR sStrand region) rest := by
  cases sStrand <;> by_cases hm : MONITOR > 2 <;>
    simp [createGraphPerRecord.regions, bundleEvents, bundleCalls, normalize, hm]

theorem merged_regions_cons (c : Collaborators G) (MONITOR : Nat)
    (sStrand : Bool) (region : Str) (rest : List Str) (g : G) (log : List Event) :
    constructDeBruijnGraph.regions c MONITOR sStrand (g, log) (region :: rest)
      = constructDeBruijnGraph.regions c MONITOR sStrand
          ((bundleCalls c sStrand region).foldl c.add_sequence g,
            log ++ bundleEvents c MONITOR sStrand region) rest := by
  cases sStrand <;> by_cases hm : MONITOR > 2 <;>
    simp [constructDeBruijnGraph.regions, bundleEvents, bundleCalls, normalize, hm]

/-- The region loop of `createGraphPerRecord` adds exactly the calls of its bundles. -/
theorem perRecord_regions_eq (c : Collaborators G) (MONITOR : Nat) (sStrand : Bool)
    (regions : List Str) (g : G) (log : List Event) :
    ∃ evs, createGraphPerRecord.regions c MONITOR sStrand (g, log) regions
        = ((regions.flatMap (bundleCalls c sStrand)).foldl c.add_sequence g, log ++ evs)
      ∧ addedSequences evs = regions.flatMap (bundleCalls c sStrand) ∧ Quiet evs := by
  induction regions generalizing g log with
  | nil => exact ⟨[], by simp [createGraphPerRecord.regions], by simp [addedSequences], quiet_nil⟩
  | cons region rest ih =>
    obtain ⟨evs, h, ha, hq⟩ := ih ((bundleCalls c sStrand region).foldl c.add_sequence g)
      (log ++ bundleEvents c MONITOR sStrand region)
    refine ⟨bundleEvents c MONITOR sStrand region ++ evs, ?_, ?_, ?_⟩
    · rw [perRecord_regions_cons, h]
      simp [List.foldl_append]
    · simp [addedSequences_append, addedSequences_bundleEvents, ha]
    · exact quiet_append (quiet_bundleEvents c MONITOR sStrand region) hq

/-- The region loop of `constructDeBruijnGraph` adds exactly the calls of its bundles. -/
theorem merged_regions_eq (c : Collaborators G) (MONITOR : Nat) (sStrand : Bool)
    (regions : List Str) (g : G) (log : List Event) :
    ∃ evs, constructDeBruijnGraph.regions c MONITOR sStrand (g, log) regions
        = ((regions.flatMap (bundleCalls c sStrand)).foldl c.add_sequence g, log ++ evs)
      ∧ addedSequences evs = regions.flatMap (bundleCalls c sStrand) ∧ Quiet evs := by
  induction regions generalizing g log with
  | nil =>
    exact ⟨[], by simp [constructDeBruijnGraph.regions], by simp [addedSequences], quiet_nil⟩
  | cons region rest ih =>
    obtain ⟨evs, h, ha, hq⟩ := ih ((bundleCalls c sStrand region).foldl c.add_sequence g)
      (log ++ bundleEvents c MONITOR sStrand region)
    refine ⟨bundleEvents c MONITOR sStrand region ++ evs, ?_, ?_, ?_⟩
    · rw [merged_regions_cons, h]
      simp [List.foldl_append]
    · simp [addedSequences_append, addedSequences_bundleEvents, ha]
    · exact quiet_append (quiet_bundleEvents c MONITOR sStrand region) hq

/-- The record loop of `constructDeBruijnGraph`. -/
theorem merged_entries_eq (c : Collaborators G) (MONITOR : Nat) (sStrand : Bool)
    (records : List Fasta_entry) (g : G) (log : List Event) :
    ∃ evs, constructDeBruijnGraph.entries c MONITOR sStrand (g, log) records
        = ((records.flatMap (fun fe => recordCalls c sStrand fe.sequence)).foldl
            c.add_sequence g, log ++ evs)
      ∧ addedSequences evs = records.flatMap (fun fe => recordCalls c sStrand fe.sequence)
      ∧ Quiet evs := by
  induction records generalizing g log with
  | nil =>
    exact ⟨[], by simp [constructDeBruijnGraph.entries], by simp [addedSequences], quiet_nil⟩
  | cons fe rest ih =>
    obtain ⟨evs₁, h₁, ha₁, hq₁⟩ := merged_regions_eq c MONITOR sStrand
      (c.tokenize fe.sequence "X".toList) g log
    obtain ⟨evs₂, h₂, ha₂, hq₂⟩ := ih
      (((c.tokenize fe.sequence "X".toList).flatMap (bundleCalls c sStrand)).foldl
        c.add_sequence g) (log ++ evs₁)
    refine ⟨evs₁ ++ evs₂, ?_, ?_, ?_⟩
    · simp only [constructDeBruijnGraph.entries]
      rw [h₁, h₂]
      simp [List.foldl_append, recordCalls]
    · simp [addedSequences_append, ha₁, ha₂, recordCalls]
    · exact quiet_append hq₁ hq₂

theorem fileEvents_log (MONITOR : Nat) (name : Str) (log : List Event) :
    (if MONITOR > 1 then log ++ [Event.cerr ("Parsing file: ".toList ++ name ++ endl)]
      else log) ++ [Event.fasta_reader name] = log ++ fileEvents MONITOR name := by
  by_cases hm : MONITOR > 1 <;> simp [fileEvents, hm]

theorem fileEvents_facts (MONITOR : Nat) (name : Str) :
    addedSequences (fileEvents MONITOR name) = [] ∧ graphsBuilt (fileEvents MONITOR name) = []
      ∧ serializations (fileEvents MONITOR name) = []
      ∧ standardOutput (fileEvents MONITOR name) = []
      ∧ filesOpened (fileEvents MONITOR name) = [name] := by
  by_cases hm : MONITOR > 1 <;>
    simp [fileEvents, addedSequences, graphsBuilt, serializations, standardOutput, filesOpened, hm]

/-- The file loop of `constructDeBruijnGraph`: no graph is built and nothing is
serialized or written inside it. -/
theorem merged_files_eq (c : Collaborators G) (fs : Str → List Fasta_entry)
    (MONITOR : Nat) (sStrand : Bool) (names : List Str) (g : G) (log : List Event) :
    ∃ evs, constructDeBruijnGraph.files c fs MONITOR sStrand (g, log) names
        = ((mergedCalls c fs sStrand names).foldl c.add_sequence g, log ++ evs)
      ∧ addedSequences evs = mergedCalls c fs sStrand names
      ∧ graphsBuilt evs = [] ∧ serializations evs = [] ∧ standardOutput evs = []
      ∧ filesOpened evs = names := by
  induction names generalizing g log with
  | nil =>
    exact ⟨[], by simp [constructDeBruijnGraph.files, mergedCalls],
      by simp [addedSequences, mergedCalls], by simp [graphsBuilt], by simp [serializations],
      by simp [standardOutput], by simp [filesOpened]⟩
  | cons name rest ih =>
    obtain ⟨evs₁, h₁, ha₁, hg₁, hs₁, ho₁, hf₁⟩ := merged_entries_eq c MONITOR
      sStrand (fs name) g (log ++ fileEvents MONITOR name)
    obtain ⟨evs₂, h₂, ha₂, hg₂, hs₂, ho₂, hf₂⟩ := ih
      (((fs name).flatMap (fun fe => recordCalls c sStrand fe.sequence)).foldl c.add_sequence g)
      (log ++ fileEvents MONITOR name ++ evs₁)
    obtain ⟨ka, kg, ks, ko, kf⟩ := fileEvents_facts MONITOR name
    refine ⟨fileEvents MONITOR name ++ evs₁ ++ evs₂, ?_, ?_, ?_, ?_, ?_, ?_⟩
    · simp only [constructDeBruijnGraph.files]
      rw [fileEvents_log, h₁, h₂]
      simp [List.foldl_append, mergedCalls]
    · simp [addedSequences_append, ha₁, ha₂, ka, mergedCalls]
    · simp [graphsBuilt_append, hg₁, hg₂, kg]
    · simp [serializations_append, hs₁, hs₂, ks]
    · simp [standardOutput_append, ho₁, ho₂, ko]
    · simp [filesOpened_append, hf₁, hf₂, kf]

/-- One record's graph in `createGraphPerRecord` is the graph of that record alone. -/
theorem perRecord_build_eq (c : Collaborators G) (MONITOR : Nat) (kmer_length : Int)
    (sStrand : Bool) (log : List Event) (sequence : Str) :
    ∃ evs, createGraphPerRecord.build c MONITOR kmer_length sStrand log sequence
        = (recordGraph c kmer_length sStrand sequence,
            log ++ [Event.graph_new kmer_length] ++ evs)
      ∧ addedSequences evs = recordCalls c sStrand sequence ∧ Quiet evs := by
  obtain ⟨evs, h, ha, hq⟩ := perRecord_regions_eq c MONITOR sStrand
    (c.tokenize sequence "X".toList) (c.graph_new kmer_length)
    (log ++ [Event.graph_new kmer_length])
  exact ⟨evs, by simpa [createGraphPerRecord.build, recordGraph, recordCalls] using h,
    by simpa [recordCalls] using ha, hq⟩

theorem pair_eq_append (a b : Event) : [a, b] = [a] ++ [b] := rfl

theorem serializationCall_facts (args : ArgProcessor) (component_id : Int) (sStrand : Bool) :
    addedSequences [serializationCall args component_id sStrand] = []
      ∧ graphsBuilt [serializationCall args component_id sStrand] = []
      ∧ serializations [serializationCall args component_id sStrand]
          = [serializationCall args component_id sStrand]
      ∧ standardOutput [serializationCall args component_id sStrand] = []
      ∧ filesOpened [serializationCall args component_id sStrand] = [] := by
  unfold serializationCall
  cases args.isArgSet "--toString".toList <;>
    simp [addedSequences, graphsBuilt, serializations, standardOutput, filesOpened]

/-- One turn of the record loop of `createGraphPerRecord`, for a record whose
accession has a second token. -/
theorem perRecord_entries_cons (c : Collaborators G) (MONITOR : Nat)
    (kmer_length : Int) (sStrand : Bool) (args : ArgProcessor) (log : List Event)
    (fe : Fasta_entry) (rest : List Fasta_entry) (token : Str)
    (h : secondToken c fe.accession = some token) :
    ∃ evs, createGraphPerRecord.entries c MONITOR kmer_length sStrand args log (fe :: rest)
        = createGraphPerRecord.entries c MONITOR kmer_length sStrand args
            (log ++ [Event.graph_new kmer_length] ++ evs
              ++ [serializationCall args (atoi token) sStrand,
                  Event.cout (recordBlock c kmer_length sStrand args (atoi token) fe.sequence)])
            rest
      ∧ addedSequences evs = recordCalls c sStrand fe.sequence ∧ Quiet evs := by
  obtain ⟨evs, hb, ha, hq⟩ := perRecord_build_eq c MONITOR kmer_length sStrand log
    fe.sequence
  refine ⟨evs, ?_, ha, hq⟩
  unfold secondToken at h
  simp only [createGraphPerRecord.entries, h, hb]
  unfold serializationCall recordBlock
  cases args.isArgSet "--toString".toList <;> simp

/-- The record loop of `createGraphPerRecord` on records whose accessions all
have a second token: one fresh graph, one serialization and one block per record. -/
theorem perRecord_entries_eq (c : Collaborators G) (MONITOR : Nat)
    (kmer_length : Int) (sStrand : Bool) (args : ArgProcessor) (records : List Fasta_entry)
    (log : List Event) (h : ∀ fe ∈ records, secondToken c fe.accession ≠ none) :
    ∃ evs, createGraphPerRecord.entries c MONITOR kmer_length sStrand args log records
        = { log := log ++ evs, ok := true }
      ∧ addedSequences evs = records.flatMap (fun fe => recordCalls c sStrand fe.sequence)
      ∧ graphsBuilt evs = records.map (fun _ => kmer_length)
      ∧ serializations evs = records.map (fun fe =>
          serializationCall args (componentId c fe.accession) sStrand)
      ∧ standardOutput evs = records.map (fun fe =>
          recordBlock c kmer_length sStrand args (componentId c fe.accession) fe.sequence)
      ∧ filesOpened evs = [] := by
  induction records generalizing log with
  | nil =>
    exact ⟨[], by simp [createGraphPerRecord.entries], by simp [addedSequences],
      by simp [graphsBuilt], by simp [serializations], by simp [standardOutput],
      by simp [filesOpened]⟩
  | cons fe rest ih =>
    have hfe : secondToken c fe.accession ≠ none := h fe (List.mem_cons_self _ _)
    obtain ⟨token, htok⟩ := Option.ne_none_iff_exists'.mp hfe
    obtain ⟨evs₁, h₁, ha₁, hg₁, hs₁, ho₁, hf₁⟩ := perRecord_entries_cons c MONITOR
      kmer_length sStrand args log fe rest token htok
    obtain ⟨evs₂, h₂, ha₂, hg₂, hs₂, ho₂, hf₂⟩ := ih
      (log ++ [Event.graph_new kmer_length] ++ evs₁
        ++ [serializationCall args (atoi token) sStrand,
            Event.cout (recordBlock c kmer_length sStrand args (atoi token) fe.sequence)])
      (fun fe' hfe' => h fe' (List.mem_cons_of_mem _ hfe'))
    obtain ⟨ka, kg, ks, ko, kf⟩ := serializationCall_facts args (atoi token) sStrand
    have hid : componentId c fe.accession = atoi token := by simp [componentId, htok]
    refine ⟨[Event.graph_new kmer_length] ++ evs₁
        ++ [serializationCall args (atoi token) sStrand]
        ++ [Event.cout (recordBlock c kmer_length sStrand args (atoi token) fe.sequence)]
        ++ evs₂, ?_, ?_, ?_, ?_, ?_, ?_⟩
    · rw [h₁, h₂]; simp
    · simp only [addedSequences_append, ha₁, ha₂, ka]
      simp [addedSequences]
    · simp only [graphsBuilt_append, hg₁, hg₂, kg]
      simp [graphsBuilt]
    · simp only [serializations_append, hs₁, hs₂, ks]
      simp [serializations, hid]
    · simp only [standardOutput_append, ho₁, ho₂, ko]
      simp [standardOutput, hid]
    · simp only [filesOpened_append, hf₁, hf₂, kf]
      simp [filesOpened]

/-- The file loop of `createGraphPerRecord` on records whose accessions all have a second token. -/
theorem perRecord_files_eq (c : Collaborators G) (fs : Str → List Fasta_entry)
    (MONITOR : Nat) (kmer_length : Int) (sStrand : Bool) (args : ArgProcessor)
    (names : List Str) (log : List Event)
    (h : ∀ name ∈ names, ∀ fe ∈ fs name, secondToken c fe.accession ≠ none) :
    ∃ evs, createGraphPerRecord.files c fs MONITOR kmer_length sStrand args log names
        = { log := log ++ evs, ok := true }
      ∧ addedSequences evs = mergedCalls c fs sStrand names
      ∧ graphsBuilt evs = (names.flatMap fs).map (fun _ => kmer_length)
      ∧ serializations evs = (names.flatMap fs).map (fun fe =>
          serializationCall args (componentId c fe.accession) sStrand)
      ∧ standardOutput evs = (names.flatMap fs).map (fun fe =>
          recordBlock c kmer_length sStrand args (componentId c fe.accession) fe.sequence)
      ∧ filesOpened evs = names := by
  induction names generalizing log with
  | nil =>
    exact ⟨[], by simp [createGraphPerRecord.files], by simp [addedSequences, mergedCalls],
      by simp [graphsBuilt], by simp [serializations], by simp [standardOutput],
      by simp [filesOpened]⟩
  | cons name rest ih =>
    obtain ⟨evs₁, h₁, ha₁, hg₁, hs₁, ho₁, hf₁⟩ := perRecord_entries_eq c MONITOR
      kmer_length sStrand args (fs name) (log ++ fileEvents MONITOR name)
      (h name (List.mem_cons_self _ _))
    obtain ⟨evs₂, h₂, ha₂, hg₂, hs₂, ho₂, hf₂⟩ := ih (log ++ fileEvents MONITOR name ++ evs₁)
      (fun name' hn => h name' (List.mem_cons_of_mem _ hn))
    obtain ⟨ka, kg, ks, ko, kf⟩ := fileEvents_facts MONITOR name
    refine ⟨fileEvents MONITOR name ++ evs₁ ++ evs₂, ?_, ?_, ?_, ?_, ?_, ?_⟩
    · simp only [createGraphPerRecord.files]
      rw [fileEvents_log, h₁]
      simp only [if_true]
      rw [h₂]; simp
    · simp [addedSequences_append, ha₁, ha₂, ka, mergedCalls]
    · simp [graphsBuilt_append, hg₁, hg₂, kg]
    · simp [serializations_append, hs₁, hs₂, ks]
    · simp [standardOutput_append, ho₁, ho₂, ko]
    · simp [filesOpened_append, hf₁, hf₂, kf]

/-- The whole of a run of `constructDeBruijnGraph`: its graph and its log. -/
theorem merged_run_eq (c : Collaborators G) (fs : Str → List Fasta_entry)
    (MONITOR : Nat) (fasta_file_names : List Str) (kmer_length component_val : Int)
    (sStrand : Bool) (args : ArgProcessor) :
    ∃ before,
      constructDeBruijnGraph c fs MONITOR fasta_file_names kmer_length component_val sStrand args
        = ((mergedCalls c fs sStrand fasta_file_names).foldl c.add_sequence
              (c.graph_new kmer_length),
            before ++ [serializationCall args component_val sStrand,
              Event.cout (if args.isArgSet "--toString".toList then
                  c.toString ((mergedCalls c fs sStrand fasta_file_names).foldl c.add_sequence
                    (c.graph_new kmer_length))
                else
                  c.toChrysalisFormat ((mergedCalls c fs sStrand fasta_file_names).foldl
                    c.add_sequence (c.graph_new kmer_length)) component_val sStrand)])
      ∧ graphsBuilt before = [kmer_length]
      ∧ addedSequences before = mergedCalls c fs sStrand fasta_file_names
      ∧ mergedCalls c fs sStrand fasta_file_names
          = fasta_file_names.flatMap (fun name => (fs name).flatMap (fun fe =>
              (c.tokenize fe.sequence "X".toList).flatMap (fun bundle =>
                if sStrand then [normalize c bundle]
                else [normalize c bundle, c.revcomp (normalize c bundle)])))
      ∧ serializations before = []
      ∧ standardOutput before = []
      ∧ filesOpened before = fasta_file_names := by
  obtain ⟨evs, h, ha, hg, hs, ho, hf⟩ := merged_files_eq c fs MONITOR sStrand
    fasta_file_names (c.graph_new kmer_length) [Event.graph_new kmer_length]
  refine ⟨[Event.graph_new kmer_length] ++ evs, ?_, ?_, ?_, ?_, ?_, ?_, ?_⟩
  · unfold constructDeBruijnGraph serializationCall
    simp only [h]
    cases args.isArgSet "--toString".toList <;> simp
  · simp only [graphsBuilt_append, hg]; simp [graphsBuilt]
  · simp only [addedSequences_append, ha]; simp [addedSequences]
  · rfl
  · simp only [serializations_append, hs]; simp [serializations]
  · simp only [standardOutput_append, ho]; simp [standardOutput]
  · simp only [filesOpened_append, hf]; simp [filesOpened]

end DriverFacts

/-! ## Properties of the parallel region, for any collaborators -/

section ParallelFacts

variable {G : Type}

theorem set_split {α : Type} (l : List α) (t : Nat) (a : α) (h : l[t]? = some a) :
    ∃ before after, l = before ++ a :: after ∧ ∀ b, l.set t b = before ++ b :: after := by
  induction l generalizing t with
  | nil => simp at h
  | cons x rest ih =>
    cases t with
    | zero =>
      simp at h
      subst h
      exact ⟨[], rest, rfl, fun b => rfl⟩
    | succ t =>
      simp at h
      obtain ⟨before, after, h₁, h₂⟩ := ih t h
      exact ⟨x :: before, after, by rw [h₁]; rfl, fun b => by simp [h₂ b]⟩

theorem emitEvents_log (c : Collaborators G) (args : ArgProcessor) (sStrand : Bool) (g : G)
    (component_id : Int) (log : List Event) :
    (if args.isArgSet "--toString".toList then
        log ++ [Event.toString, Event.cout (c.toString g)]
      else
        log ++ [Event.toChrysalisFormat component_id sStrand,
                Event.cout (c.toChrysalisFormat g component_id sStrand)])
      = log ++ emitEvents c args sStrand g component_id := by
  unfold emitEvents
  cases args.isArgSet "--toString".toList <;> simp

/-- Every move of a thread is one of the moves of the relation. -/
theorem step_sound (c : Collaborators G) (MONITOR : Nat) (kmer_length : Int) (sStrand : Bool)
    (args : ArgProcessor) (t : Nat) (s s' : Region G)
    (h : createGraphPerRecord.step c MONITOR kmer_length sStrand args t s = some s') :
    createGraphPerRecord.Step c MONITOR kmer_length sStrand args s s' := by
  obtain ⟨reader, workers, log, ok⟩ := s
  unfold createGraphPerRecord.step at h
  cases ok with
  | false => simp at h
  | true =>
    simp only [if_true] at h
    cases hw : workers[t]? with
    | none => simp [hw] at h
    | some w =>
      obtain ⟨before, after, hsplit, hset⟩ := set_split workers t w hw
      simp only [hw] at h
      cases w with
      | done => simp at h
      | ready =>
        cases reader with
        | nil =>
          simp only [Option.some.injEq] at h
          subst h; subst hsplit
          rw [hset]
          exact createGraphPerRecord.Step.leave before after log
        | cons fe rest =>
          simp only [Option.some.injEq] at h
          subst h; subst hsplit
          rw [hset]
          exact createGraphPerRecord.Step.take fe rest before after log
      | claimed fe =>
        cases htok : secondToken c fe.accession with
        | none =>
          unfold secondToken at htok
          simp only [htok, Option.some.injEq] at h
          subst h; subst hsplit
          exact createGraphPerRecord.Step.crash fe reader before after log
            (by unfold secondToken; exact htok)
        | some token =>
          have htok' := htok
          unfold secondToken at htok
          simp only [htok, Option.some.injEq] at h
          subst h; subst hsplit
          rw [hset]
          exact createGraphPerRecord.Step.work fe reader before after log token htok'
      | built g component_id =>
        simp only [Option.some.injEq] at h
        subst h; subst hsplit
        rw [hset, emitEvents_log]
        exact createGraphPerRecord.Step.emit g component_id reader before after log

/-- A thread that has not left the loop can always move. -/
theorem step_enabled (c : Collaborators G) (MONITOR : Nat) (kmer_length : Int) (sStrand : Bool)
    (args : ArgProcessor) (t : Nat) (s : Region G) (w : Worker G) (hok : s.ok = true)
    (hw : s.workers[t]? = some w) (hdone : w.isDone = false) :
    ∃ s', createGraphPerRecord.step c MONITOR kmer_length sStrand args t s = some s' := by
  unfold createGraphPerRecord.step
  simp only [hok, if_true, hw]
  cases w with
  | done => simp [Worker.isDone] at hdone
  | ready => cases s.reader <;> simp
  | claimed fe =>
    simp only []
    split <;> exact ⟨_, rfl⟩
  | built g component_id => exact ⟨_, rfl⟩


theorem sum_map_split {α β : Type} [AddCommMonoid β] (f : α → β) (before after : List α)
    (a : α) : ((before ++ a :: after).map f).sum
      = f a + ((before.map f).sum + (after.map f).sum) := by
  simp only [List.map_append, List.map_cons, List.sum_append, List.sum_cons]
  abel

/-- A move that keeps the behaviour defined uses up exactly one of the moves left. -/
theorem step_movesLeft (c : Collaborators G) (MONITOR : Nat) (kmer_length : Int)
    (sStrand : Bool) (args : ArgProcessor) (s s' : Region G)
    (h : createGraphPerRecord.Step c MONITOR kmer_length sStrand args s s')
    (hok : s'.ok = true) : s'.movesLeft + 1 = s.movesLeft := by
  cases h with
  | leave before after log =>
    simp only [Region.movesLeft, sum_map_split, Worker.weight, List.length_nil]
    omega
  | take fe rest before after log =>
    simp only [Region.movesLeft, sum_map_split, Worker.weight, List.length_cons]
    omega
  | crash fe reader before after log htok => simp at hok
  | work fe reader before after log token htok =>
    simp only [Region.movesLeft, sum_map_split, Worker.weight]
    omega
  | emit g component_id reader before after log =>
    simp only [Region.movesLeft, sum_map_split, Worker.weight]
    omega

/-- In a sound region no move leaves the defined behaviour, and the region stays sound. -/
theorem step_keeps_sound (c : Collaborators G) (MONITOR : Nat) (kmer_length : Int)
    (sStrand : Bool) (args : ArgProcessor) (s s' : Region G)
    (h : createGraphPerRecord.Step c MONITOR kmer_length sStrand args s s')
    (hs : s.Sound c) : s'.ok = true ∧ s'.Sound c := by
  obtain ⟨hreader, hclaimed, hdone⟩ := hs
  cases h with
  | leave before after log =>
    refine ⟨rfl, hreader, ?_, fun _ => rfl⟩
    intro fe hfe
    apply hclaimed fe
    simp only [List.mem_append, List.mem_cons] at hfe ⊢
    rcases hfe with h | h | h
    · exact Or.inl h
    · cases h
    · exact Or.inr (Or.inr h)
  | take fe rest before after log =>
    refine ⟨rfl, fun fe' h' => hreader fe' (List.mem_cons_of_mem _ h'), ?_, ?_⟩
    · intro fe' hfe'
      simp only [List.mem_append, List.mem_cons] at hfe'
      rcases hfe' with h | h | h
      · exact hclaimed fe' (by simp [h])
      · cases h
        exact hreader fe (List.mem_cons_self _ _)
      · exact hclaimed fe' (by simp [h])
    · intro hd
      simp only [List.mem_append, List.mem_cons] at hd
      have : Worker.done ∈ before ++ Worker.ready :: after := by
        rcases hd with h | h | h
        · simp [h]
        · cases h
        · simp [h]
      exact absurd (hdone this) (by simp)
  | crash fe reader before after log htok =>
    exact absurd htok (hclaimed fe (by simp))
  | work fe reader before after log token htok =>
    refine ⟨rfl, hreader, ?_, ?_⟩
    · intro fe' hfe'
      simp only [List.mem_append, List.mem_cons] at hfe'
      rcases hfe' with h | h | h
      · exact hclaimed fe' (by simp [h])
      · cases h
      · exact hclaimed fe' (by simp [h])
    · intro hd
      apply hdone
      simp only [List.mem_append, List.mem_cons] at hd ⊢
      rcases hd with h | h | h
      · exact Or.inl h
      · cases h
      · exact Or.inr (Or.inr h)
  | emit g component_id reader before after log =>
    refine ⟨rfl, hreader, ?_, ?_⟩
    · intro fe' hfe'
      simp only [List.mem_append, List.mem_cons] at hfe'
      rcases hfe' with h | h | h
      · exact hclaimed fe' (by simp [h])
      · cases h
      · exact hclaimed fe' (by simp [h])
    · intro hd
      apply hdone
      simp only [List.mem_append, List.mem_cons] at hd ⊢
      rcases hd with h | h | h
      · exact Or.inl h
      · cases h
      · exact Or.inr (Or.inr h)

/-- A move that keeps the behaviour defined keeps the account of an
observation: what is logged was owed by the thread that moved. -/
theorem step_account {α : Type} (c : Collaborators G) (MONITOR : Nat) (kmer_length : Int)
    (sStrand : Bool) (args : ArgProcessor) (observe : List Event → Multiset α)
    (ofRecord : Fasta_entry → Multiset α) (ofGraph : G → Int → Multiset α)
    (happend : ∀ l₁ l₂, observe (l₁ ++ l₂) = observe l₁ + observe l₂)
    (hwork : ∀ fe token log, secondToken c fe.accession = some token →
      observe (createGraphPerRecord.build c MONITOR kmer_length sStrand log fe.sequence).2
        + ofGraph (createGraphPerRecord.build c MONITOR kmer_length sStrand log fe.sequence).1
            (atoi token)
      = observe log + ofRecord fe)
    (hemit : ∀ g component_id,
      observe (emitEvents c args sStrand g component_id) = ofGraph g component_id)
    (s s' : Region G)
    (h : createGraphPerRecord.Step c MONITOR kmer_length sStrand args s s')
    (hok : s'.ok = true) :
    s'.account observe ofRecord ofGraph = s.account observe ofRecord ofGraph := by
  cases h with
  | leave before after log =>
    simp only [Region.account, sum_map_split, Worker.owes]
  | take fe rest before after log =>
    simp only [Region.account, sum_map_split, Worker.owes, List.map_cons, List.sum_cons]
    abel
  | crash fe reader before after log htok => simp at hok
  | work fe reader before after log token htok =>
    simp only [Region.account, sum_map_split, Worker.owes]
    have := hwork fe token log htok
    calc observe (createGraphPerRecord.build c MONITOR kmer_length sStrand log fe.sequence).2
          + (ofGraph (createGraphPerRecord.build c MONITOR kmer_length sStrand log
              fe.sequence).1 (atoi token)
            + ((List.map (Worker.owes ofRecord ofGraph) before).sum
              + (List.map (Worker.owes ofRecord ofGraph) after).sum))
          + (List.map ofRecord reader).sum
        = (observe (createGraphPerRecord.build c MONITOR kmer_length sStrand log
              fe.sequence).2
            + ofGraph (createGraphPerRecord.build c MONITOR kmer_length sStrand log
              fe.sequence).1 (atoi token))
          + ((List.map (Worker.owes ofRecord ofGraph) before).sum
              + (List.map (Worker.owes ofRecord ofGraph) after).sum)
          + (List.map ofRecord reader).sum := by abel
      _ = observe log + (ofRecord fe
            + ((List.map (Worker.owes ofRecord ofGraph) before).sum
              + (List.map (Worker.owes ofRecord ofGraph) after).sum))
          + (List.map ofRecord reader).sum := by rw [this]; abel
  | emit g component_id reader before after log =>
    simp only [Region.account, sum_map_split, Worker.owes, happend, hemit]
    abel


theorem step_workers_length (c : Collaborators G) (MONITOR : Nat) (kmer_length : Int)
    (sStrand : Bool) (args : ArgProcessor) (s s' : Region G)
    (h : createGraphPerRecord.Step c MONITOR kmer_length sStrand args s s') :
    s'.workers.length = s.workers.length := by
  cases h <;> simp

/-- A schedule run from a sound region keeps the behaviour defined and the
region sound, keeps the team, and uses up one of the moves left at each step. -/
theorem run_keeps_sound (c : Collaborators G) (MONITOR : Nat) (kmer_length : Int)
    (sStrand : Bool) (args : ArgProcessor) (schedule : List Nat) (s s' : Region G)
    (h : createGraphPerRecord.run c MONITOR kmer_length sStrand args schedule s = some s')
    (hok : s.ok = true) (hs : s.Sound c) :
    s'.ok = true ∧ s'.Sound c ∧ s'.workers.length = s.workers.length
      ∧ schedule.length + s'.movesLeft = s.movesLeft := by
  induction schedule generalizing s with
  | nil =>
    simp only [createGraphPerRecord.run, Option.some.injEq] at h
    subst h
    exact ⟨hok, hs, rfl, by simp⟩
  | cons t rest ih =>
    simp only [createGraphPerRecord.run] at h
    cases hstep : createGraphPerRecord.step c MONITOR kmer_length sStrand args t s with
    | none => simp [hstep] at h
    | some s₁ =>
      simp only [hstep] at h
      have hrel := step_sound c MONITOR kmer_length sStrand args t s s₁ hstep
      obtain ⟨hok₁, hs₁⟩ := step_keeps_sound c MONITOR kmer_length sStrand args s s₁ hrel hs
      obtain ⟨h₁, h₂, h₃, h₄⟩ := ih s₁ h hok₁ hs₁
      have hm := step_movesLeft c MONITOR kmer_length sStrand args s s₁ hrel hok₁
      have hl := step_workers_length c MONITOR kmer_length sStrand args s s₁ hrel
      refine ⟨h₁, h₂, by rw [h₃, hl], ?_⟩
      simp only [List.length_cons]
      omega

/-- A schedule run from a sound region keeps the account of an observation. -/
theorem run_account {α : Type} (c : Collaborators G) (MONITOR : Nat) (kmer_length : Int)
    (sStrand : Bool) (args : ArgProcessor) (observe : List Event → Multiset α)
    (ofRecord : Fasta_entry → Multiset α)
    (happend : ∀ l₁ l₂, observe (l₁ ++ l₂) = observe l₁ + observe l₂)
    (hwork : ∀ fe token log, secondToken c fe.accession = some token →
      observe (createGraphPerRecord.build c MONITOR kmer_length sStrand log fe.sequence).2
        + observe (emitEvents c args sStrand
            (createGraphPerRecord.build c MONITOR kmer_length sStrand log fe.sequence).1
            (atoi token))
      = observe log + ofRecord fe)
    (schedule : List Nat) (s s' : Region G)
    (h : createGraphPerRecord.run c MONITOR kmer_length sStrand args schedule s = some s')
    (hs : s.Sound c) :
    s'.account observe ofRecord (fun g id => observe (emitEvents c args sStrand g id))
      = s.account observe ofRecord (fun g id => observe (emitEvents c args sStrand g id)) := by
  induction schedule generalizing s with
  | nil =>
    simp only [createGraphPerRecord.run, Option.some.injEq] at h
    subst h
    rfl
  | cons t rest ih =>
    simp only [createGraphPerRecord.run] at h
    cases hstep : createGraphPerRecord.step c MONITOR kmer_length sStrand args t s with
    | none => simp [hstep] at h
    | some s₁ =>
      simp only [hstep] at h
      have hrel := step_sound c MONITOR kmer_length sStrand args t s s₁ hstep
      obtain ⟨hok₁, hs₁⟩ := step_keeps_sound c MONITOR kmer_length sStrand args s s₁ hrel hs
      rw [ih s₁ h hs₁]
      exact step_account c MONITOR kmer_length sStrand args observe ofRecord _ happend hwork
        (fun _ _ => rfl) s s₁ hrel hok₁

theorem owes_of_all_done {α : Type} (ofRecord : Fasta_entry → Multiset α)
    (ofGraph : G → Int → Multiset α) (workers : List (Worker G))
    (h : workers.all Worker.isDone = true) :
    (workers.map (Worker.owes ofRecord ofGraph)).sum = 0 := by
  induction workers with
  | nil => rfl
  | cons w rest ih =>
    simp only [List.all_cons, Bool.and_eq_true] at h
    cases w with
    | done => simp [Worker.owes, ih h.2]
    | ready => simp [Worker.isDone] at h
    | claimed fe => simp [Worker.isDone] at h
    | built g id => simp [Worker.isDone] at h

theorem done_mem_of_all_done (workers : List (Worker G)) (h : workers.all Worker.isDone = true)
    (hlen : 1 ≤ workers.length) : Worker.done ∈ workers := by
  cases workers with
  | nil => simp at hlen
  | cons w rest =>
    simp only [List.all_cons, Bool.and_eq_true] at h
    cases w with
    | done => exact List.mem_cons_self _ _
    | ready => simp [Worker.isDone] at h
    | claimed fe => simp [Worker.isDone] at h
    | built g id => simp [Worker.isDone] at h

theorem enter_sound (c : Collaborators G) (records : List Fasta_entry) (team : Nat)
    (log : List Event) (h : ∀ fe ∈ records, secondToken c fe.accession ≠ none) :
    (createGraphPerRecord.enter records team log : Region G).Sound c := by
  refine ⟨h, ?_, ?_⟩
  · intro fe hfe
    simp only [createGraphPerRecord.enter] at hfe
    have := List.eq_of_mem_replicate hfe
    cases this
  · intro hd
    simp only [createGraphPerRecord.enter] at hd
    have := List.eq_of_mem_replicate hd
    cases this

theorem enter_account {α : Type} (observe : List Event → Multiset α)
    (ofRecord : Fasta_entry → Multiset α) (ofGraph : G → Int → Multiset α)
    (records : List Fasta_entry) (team : Nat) (log : List Event) :
    (createGraphPerRecord.enter records team log : Region G).account observe ofRecord ofGraph
      = observe log + (records.map ofRecord).sum := by
  have h : ((List.replicate team (Worker.ready : Worker G)).map
      (Worker.owes ofRecord ofGraph)).sum = 0 := by
    induction team with
    | zero => rfl
    | succ n ih => simp [List.replicate_succ, Worker.owes, ih]
  simp only [Region.account, createGraphPerRecord.enter, h, add_zero]

/-- The region of one file, run to its barrier by any team and schedule, adds
to an observation of the log exactly what the records of the file contribute. -/
theorem region_observation {α : Type} (c : Collaborators G) (MONITOR : Nat) (kmer_length : Int)
    (sStrand : Bool) (args : ArgProcessor) (observe : List Event → Multiset α)
    (ofRecord : Fasta_entry → Multiset α)
    (happend : ∀ l₁ l₂, observe (l₁ ++ l₂) = observe l₁ + observe l₂)
    (hwork : ∀ fe token log, secondToken c fe.accession = some token →
      observe (createGraphPerRecord.build c MONITOR kmer_length sStrand log fe.sequence).2
        + observe (emitEvents c args sStrand
            (createGraphPerRecord.build c MONITOR kmer_length sStrand log fe.sequence).1
            (atoi token))
      = observe log + ofRecord fe)
    (records : List Fasta_entry) (team : Nat) (hteam : 1 ≤ team) (log : List Event)
    (hwf : ∀ fe ∈ records, secondToken c fe.accession ≠ none)
    (schedule : List Nat) (s : Region G)
    (h : createGraphPerRecord.run c MONITOR kmer_length sStrand args schedule
      (createGraphPerRecord.enter records team log) = some s)
    (hdone : s.workers.all Worker.isDone = true) :
    observe s.log = observe log + (records.map ofRecord).sum := by
  have hsound := enter_sound c records team log hwf
  obtain ⟨_, hs, hlen, _⟩ := run_keeps_sound c MONITOR kmer_length sStrand args schedule _ s h
    rfl hsound
  have hacc := run_account c MONITOR kmer_length sStrand args observe ofRecord happend hwork
    schedule _ s h hsound
  rw [enter_account] at hacc
  have hreader : s.reader = [] :=
    hs.2.2 (done_mem_of_all_done s.workers hdone (by
      rw [hlen]; simp [createGraphPerRecord.enter]; exact hteam))
  simp only [Region.account, owes_of_all_done _ _ s.workers hdone, hreader, List.map_nil,
    List.sum_nil, add_zero] at hacc
  exact hacc


/-- From a sound region some schedule reaches the barrier: a thread that has
not left the loop can move, and every move uses up one of the moves left. -/
theorem run_reaches_barrier (c : Collaborators G) (MONITOR : Nat) (kmer_length : Int)
    (sStrand : Bool) (args : ArgProcessor) (n : Nat) (s : Region G) (hn : s.movesLeft ≤ n)
    (hok : s.ok = true) (hs : s.Sound c) :
    ∃ schedule s', createGraphPerRecord.run c MONITOR kmer_length sStrand args schedule s
        = some s' ∧ s'.workers.all Worker.isDone = true := by
  induction n generalizing s with
  | zero =>
    by_cases hall : s.workers.all Worker.isDone = true
    · exact ⟨[], s, rfl, hall⟩
    · simp only [List.all_eq_true, not_forall] at hall
      obtain ⟨w, hw, hdone⟩ := hall
      obtain ⟨t, ht⟩ := List.mem_iff_getElem?.mp hw
      obtain ⟨s₁, hstep⟩ := step_enabled c MONITOR kmer_length sStrand args t s w hok ht
        (by simpa using hdone)
      have hrel := step_sound c MONITOR kmer_length sStrand args t s s₁ hstep
      obtain ⟨hok₁, _⟩ := step_keeps_sound c MONITOR kmer_length sStrand args s s₁ hrel hs
      have := step_movesLeft c MONITOR kmer_length sStrand args s s₁ hrel hok₁
      omega
  | succ m ih =>
    by_cases hall : s.workers.all Worker.isDone = true
    · exact ⟨[], s, rfl, hall⟩
    · simp only [List.all_eq_true, not_forall] at hall
      obtain ⟨w, hw, hdone⟩ := hall
      obtain ⟨t, ht⟩ := List.mem_iff_getElem?.mp hw
      obtain ⟨s₁, hstep⟩ := step_enabled c MONITOR kmer_length sStrand args t s w hok ht
        (by simpa using hdone)
      have hrel := step_sound c MONITOR kmer_length sStrand args t s s₁ hstep
      obtain ⟨hok₁, hs₁⟩ := step_keeps_sound c MONITOR kmer_length sStrand args s s₁ hrel hs
      have hm := step_movesLeft c MONITOR kmer_length sStrand args s s₁ hrel hok₁
      obtain ⟨schedule, s', hrun, hall'⟩ := ih s₁ (by omega) hok₁ hs₁
      exact ⟨t :: schedule, s', by simp [createGraphPerRecord.run, hstep, hrun], hall'⟩

/-- A run of `createGraphPerRecord` under any plan, on records whose
accessions all have a second token, completes and adds to an observation of
the log exactly what the records contribute. -/
theorem parallelFiles_observation {α : Type} (c : Collaborators G)
    (fs : Str → List Fasta_entry) (MONITOR : Nat) (kmer_length : Int) (sStrand : Bool)
    (args : ArgProcessor) (observe : List Event → Multiset α)
    (ofRecord : Fasta_entry → Multiset α)
    (happend : ∀ l₁ l₂, observe (l₁ ++ l₂) = observe l₁ + observe l₂)
    (hfile : ∀ name, observe (fileEvents MONITOR name) = 0)
    (hwork : ∀ fe token log, secondToken c fe.accession = some token →
      observe (createGraphPerRecord.build c MONITOR kmer_length sStrand log fe.sequence).2
        + observe (emitEvents c args sStrand
            (createGraphPerRecord.build c MONITOR kmer_length sStrand log fe.sequence).1
            (atoi token))
      = observe log + ofRecord fe)
    (names : List Str) (log : List Event) (plan : List (Nat × List Nat)) (r : Outcome)
    (hwf : ∀ name ∈ names, ∀ fe ∈ fs name, secondToken c fe.accession ≠ none)
    (h : createGraphPerRecord.parallelFiles c fs MONITOR kmer_length sStrand args log names plan
      = some r) :
    r.ok = true ∧ observe r.log = observe log + ((names.flatMap fs).map ofRecord).sum := by
  induction names generalizing log plan with
  | nil =>
    simp only [createGraphPerRecord.parallelFiles, Option.some.injEq] at h
    subst h
    simp
  | cons name rest ih =>
    cases plan with
    | nil => simp [createGraphPerRecord.parallelFiles] at h
    | cons entry plan =>
      obtain ⟨team, schedule⟩ := entry
      simp only [createGraphPerRecord.parallelFiles] at h
      rw [fileEvents_log] at h
      by_cases hteam : team = 0
      · simp [hteam] at h
      · simp only [hteam, if_false] at h
        cases hrun : createGraphPerRecord.run c MONITOR kmer_length sStrand args schedule
            (createGraphPerRecord.enter (fs name) team (log ++ fileEvents MONITOR name)) with
        | none => simp [hrun] at h
        | some s =>
          simp only [hrun] at h
          have hwf₁ := hwf name (List.mem_cons_self _ _)
          obtain ⟨hok, _⟩ := run_keeps_sound c MONITOR kmer_length sStrand args schedule _ s
            hrun rfl (enter_sound c (fs name) team _ hwf₁)
          simp only [hok, if_true] at h
          by_cases hdone : s.workers.all Worker.isDone = true
          · simp only [hdone, if_true] at h
            obtain ⟨h₁, h₂⟩ := ih s.log plan
              (fun name' hn => hwf name' (List.mem_cons_of_mem _ hn)) h
            have hreg := region_observation c MONITOR kmer_length sStrand args observe ofRecord
              happend hwork (fs name) team (by omega) (log ++ fileEvents MONITOR name) hwf₁
              schedule s hrun hdone
            refine ⟨h₁, ?_⟩
            rw [h₂, hreg, happend, hfile]
            simp only [List.flatMap_cons, List.map_append, List.sum_append, add_zero]
            abel
          · simp [hdone] at h

/-- For every choice of a team of at least one thread for each file there are
schedules under which the run of `createGraphPerRecord` is an execution. -/
theorem parallelFiles_execution (c : Collaborators G) (fs : Str → List Fasta_entry)
    (MONITOR : Nat) (kmer_length : Int) (sStrand : Bool) (args : ArgProcessor)
    (names : List Str) (log : List Event) (teams : List Nat)
    (hlen : teams.length = names.length) (hteams : ∀ team ∈ teams, 1 ≤ team)
    (hwf : ∀ name ∈ names, ∀ fe ∈ fs name, secondToken c fe.accession ≠ none) :
    ∃ schedules r, schedules.length = teams.length
      ∧ createGraphPerRecord.parallelFiles c fs MONITOR kmer_length sStrand args log names
          (teams.zip schedules) = some r := by
  induction names generalizing log teams with
  | nil =>
    cases teams with
    | nil => exact ⟨[], _, rfl, rfl⟩
    | cons _ _ => simp at hlen
  | cons name rest ih =>
    cases teams with
    | nil => simp at hlen
    | cons team teams =>
      have hteam : 1 ≤ team := hteams team (List.mem_cons_self _ _)
      have hwf₁ := hwf name (List.mem_cons_self _ _)
      have hsound := enter_sound c (fs name) team (log ++ fileEvents MONITOR name) hwf₁
      obtain ⟨schedule, s, hrun, hdone⟩ := run_reaches_barrier c MONITOR kmer_length sStrand
        args _ (createGraphPerRecord.enter (fs name) team (log ++ fileEvents MONITOR name))
        (le_refl _) rfl hsound
      obtain ⟨hok, _⟩ := run_keeps_sound c MONITOR kmer_length sStrand args schedule _ s hrun
        rfl hsound
      obtain ⟨schedules, r, hl, hr⟩ := ih s.log teams (by simpa using hlen)
        (fun t ht => hteams t (List.mem_cons_of_mem _ ht))
        (fun name' hn => hwf name' (List.mem_cons_of_mem _ hn))
      refine ⟨schedule :: schedules, r, by simp [hl], ?_⟩
      simp only [List.zip_cons_cons, createGraphPerRecord.parallelFiles]
      rw [fileEvents_log]
      have hne : ¬ team = 0 := by omega
      simp only [hne, if_false, hrun, hok, if_true, hdone]
      exact hr

theorem sum_map_singleton {α β : Type} (f : α → β) (l : List α) :
    (l.map (fun a => ({f a} : Multiset β))).sum = ((l.map f : List β) : Multiset β) := by
  induction l with
  | nil => rfl
  | cons a rest ih =>
    simp only [List.map_cons, List.sum_cons, ih]
    rfl


/-- What building and serializing the graph of one record adds to the log. -/
theorem build_emit_facts (c : Collaborators G) (MONITOR : Nat) (kmer_length : Int)
    (sStrand : Bool) (args : ArgProcessor) (fe : Fasta_entry) (token : Str) (log : List Event)
    (h : secondToken c fe.accession = some token) :
    graphsBuilt ((createGraphPerRecord.build c MONITOR kmer_length sStrand log fe.sequence).2
        ++ emitEvents c args sStrand
          (createGraphPerRecord.build c MONITOR kmer_length sStrand log fe.sequence).1
          (atoi token))
      = graphsBuilt log ++ [kmer_length]
    ∧ serializations
        ((createGraphPerRecord.build c MONITOR kmer_length sStrand log fe.sequence).2
        ++ emitEvents c args sStrand
          (createGraphPerRecord.build c MONITOR kmer_length sStrand log fe.sequence).1
          (atoi token))
      = serializations log ++ [serializationCall args (componentId c fe.accession) sStrand]
    ∧ standardOutput
        ((createGraphPerRecord.build c MONITOR kmer_length sStrand log fe.sequence).2
        ++ emitEvents c args sStrand
          (createGraphPerRecord.build c MONITOR kmer_length sStrand log fe.sequence).1
          (atoi token))
      = standardOutput log
        ++ [recordBlock c kmer_length sStrand args (componentId c fe.accession)
            fe.sequence] := by
  obtain ⟨evs, hb, _, hg, hs, ho, _⟩ := perRecord_build_eq c MONITOR kmer_length sStrand log
    fe.sequence
  have hid : componentId c fe.accession = atoi token := by simp [componentId, h]
  rw [hb, hid]
  unfold emitEvents serializationCall recordBlock
  simp only [graphsBuilt_append, serializations_append, standardOutput_append, hg, hs, ho]
  cases args.isArgSet "--toString".toList <;>
    simp [graphsBuilt, serializations, standardOutput]

theorem movesLeft_enter (records : List Fasta_entry) (team : Nat) (log : List Event) :
    (createGraphPerRecord.enter records team log : Region G).movesLeft
      = 3 * records.length + team := by
  have h : ((List.replicate team (Worker.ready : Worker G)).map Worker.weight).sum = team := by
    induction team with
    | zero => rfl
    | succ n ih => simp only [List.replicate_succ, List.map_cons, List.sum_cons, ih,
        Worker.weight]; omega
  simp only [Region.movesLeft, createGraphPerRecord.enter, h]

/-- With a team of one thread the region takes the records in file order: its
run is the record loop of the sequential embedding. -/
theorem one_thread_region (c : Collaborators G) (MONITOR : Nat) (kmer_length : Int)
    (sStrand : Bool) (args : ArgProcessor) (records : List Fasta_entry) (log : List Event)
    (hwf : ∀ fe ∈ records, secondToken c fe.accession ≠ none) :
    createGraphPerRecord.run c MONITOR kmer_length sStrand args
        (List.replicate (3 * records.length + 1) 0)
        { reader := records, workers := [Worker.ready], log := log, ok := true }
      = some { reader := [], workers := [Worker.done],
               log := (createGraphPerRecord.entries c MONITOR kmer_length sStrand args log
                 records).log,
               ok := true }
    ∧ (createGraphPerRecord.entries c MONITOR kmer_length sStrand args log records).ok
        = true := by
  induction records generalizing log with
  | nil =>
    simp [createGraphPerRecord.run, createGraphPerRecord.step, createGraphPerRecord.entries]
  | cons fe rest ih =>
    have hfe : secondToken c fe.accession ≠ none := hwf fe (List.mem_cons_self _ _)
    obtain ⟨token, htok⟩ := Option.ne_none_iff_exists'.mp hfe
    unfold secondToken at htok
    have hlen : 3 * (fe :: rest).length + 1 = (3 * rest.length + 1) + 3 := by
      simp only [List.length_cons]; omega
    rw [hlen]
    simp only [List.replicate_succ, createGraphPerRecord.run, createGraphPerRecord.step,
      if_true, List.getElem?_cons_zero, List.set_cons_zero, htok,
      createGraphPerRecord.entries]
    exact ih _ (fun fe' h' => hwf fe' (List.mem_cons_of_mem _ h'))

/-- The sequential embedding of `createGraphPerRecord` is its run under the
plan that gives every file a team of one thread. -/
theorem one_thread_files (c : Collaborators G) (fs : Str → List Fasta_entry) (MONITOR : Nat)
    (kmer_length : Int) (sStrand : Bool) (args : ArgProcessor) (names : List Str)
    (log : List Event)
    (hwf : ∀ name ∈ names, ∀ fe ∈ fs name, secondToken c fe.accession ≠ none) :
    createGraphPerRecord.parallelFiles c fs MONITOR kmer_length sStrand args log names
        (names.map (fun name => (1, List.replicate (3 * (fs name).length + 1) 0)))
      = some (createGraphPerRecord.files c fs MONITOR kmer_length sStrand args log names) := by
  induction names generalizing log with
  | nil => simp [createGraphPerRecord.parallelFiles, createGraphPerRecord.files]
  | cons name rest ih =>
    obtain ⟨hrun, hok⟩ := one_thread_region c MONITOR kmer_length sStrand args (fs name)
      ((if MONITOR > 1 then log ++ [Event.cerr ("Parsing file: ".toList ++ name ++ endl)]
        else log) ++ [Event.fasta_reader name])
      (hwf name (List.mem_cons_self _ _))
    simp only [List.map_cons, createGraphPerRecord.parallelFiles, createGraphPerRecord.files,
      createGraphPerRecord.enter, List.replicate_one, hrun, hok, if_true,
      Nat.one_ne_zero, if_false, List.all_cons, List.all_nil, Worker.isDone, Bool.and_self]
    exact ih _ (fun name' hn => hwf name' (List.mem_cons_of_mem _ hn))

/-- The function `createGraphPerRecord` of the sequential embedding is the run
under the plan that gives every file a team of one thread. -/
theorem one_thread_run (c : Collaborators G) (fs : Str → List Fasta_entry) (MONITOR : Nat)
    (fasta_file_names : List Str) (kmer_length : Int) (sStrand : Bool) (args : ArgProcessor)
    (hwf : ∀ name ∈ fasta_file_names, ∀ fe ∈ fs name, secondToken c fe.accession ≠ none) :
    createGraphPerRecord.parallel c fs MONITOR fasta_file_names kmer_length sStrand args
        (fasta_file_names.map (fun name => (1, List.replicate (3 * (fs name).length + 1) 0)))
      = some (createGraphPerRecord c fs MONITOR fasta_file_names kmer_length sStrand args) :=
  one_thread_files c fs MONITOR kmer_length sStrand args fasta_file_names [] hwf

end ParallelFacts

/-! ## The claims about the driver -/

section DriverClaims

variable {G : Type}

/-- C1: when `--fasta` is missing, or `-K` is missing, or both `-C` and
`--graph_per_record` are missing, `fastaToDeBruijn` returns status 1 having
only written the usage message to standard error: no FASTA file is opened, no
graph is constructed, no sequence is added and nothing is written to standard
output. -/
theorem fastaToDeBruijn_usage_error (c : Collaborators G) (fs : Str → List Fasta_entry)
    (args : ArgProcessor)
    (h : args.isArgSet "--fasta".toList = false ∨ args.isArgSet "-K".toList = false
      ∨ (args.isArgSet "-C".toList = false
          ∧ args.isArgSet "--graph_per_record".toList = false)) :
    fastaToDeBruijn c fs args = (some 1, [Event.cerr (usage args ++ endl ++ endl)])
      ∧ filesOpened (fastaToDeBruijn c fs args).2 = []
      ∧ graphsBuilt (fastaToDeBruijn c fs args).2 = []
      ∧ addedSequences (fastaToDeBruijn c fs args).2 = []
      ∧ standardOutput (fastaToDeBruijn c fs args).2 = [] := by
  have key : fastaToDeBruijn c fs args = (some 1, [Event.cerr (usage args ++ endl ++ endl)]) := by
    unfold fastaToDeBruijn
    rcases h with h | h | ⟨h₁, h₂⟩
    · rw [h]; simp
    · rw [h]; simp
    · rw [h₁, h₂]; simp
  rw [key]
  exact ⟨rfl, rfl, rfl, rfl, rfl⟩

/-- Witness of C1: a command line with `-K 3` only. -/
theorem fastaToDeBruijn_usage_error_witness :
    ((exampleArgs [("-K".toList, "3".toList)]).isArgSet "--fasta".toList = false
      ∨ (exampleArgs [("-K".toList, "3".toList)]).isArgSet "-K".toList = false
      ∨ ((exampleArgs [("-K".toList, "3".toList)]).isArgSet "-C".toList = false
          ∧ (exampleArgs [("-K".toList, "3".toList)]).isArgSet "--graph_per_record".toList
              = false))
    ∧ (fastaToDeBruijn exampleModel (exampleFiles []) (exampleArgs [("-K".toList, "3".toList)])
          = (some 1, [Event.cerr (usage (exampleArgs [("-K".toList, "3".toList)])
              ++ endl ++ endl)])
      ∧ filesOpened (fastaToDeBruijn exampleModel (exampleFiles [])
          (exampleArgs [("-K".toList, "3".toList)])).2 = []
      ∧ graphsBuilt (fastaToDeBruijn exampleModel (exampleFiles [])
          (exampleArgs [("-K".toList, "3".toList)])).2 = []
      ∧ addedSequences (fastaToDeBruijn exampleModel (exampleFiles [])
          (exampleArgs [("-K".toList, "3".toList)])).2 = []
      ∧ standardOutput (fastaToDeBruijn exampleModel (exampleFiles [])
          (exampleArgs [("-K".toList, "3".toList)])).2 = []) :=
  ⟨by decide, fastaToDeBruijn_usage_error exampleModel (exampleFiles [])
    (exampleArgs [("-K".toList, "3".toList)]) (by decide)⟩

/-- C2, as the code has it: in merged mode exactly one graph is built, the
strings passed to `add_sequence` are, over files in order, records in order and
bundles in order, the normalized bundle followed (unless strand-specific) by
its reverse complement, and the graph is serialized exactly once, as the last
step, also when there are no records: by `toChrysalisFormat` with the caller's
component identifier and strand flag when `--toString` is not set, and by
`toString`, which takes no component identifier, when it is set. -/
theorem constructDeBruijnGraph_merged (c : Collaborators G) (fs : Str → List Fasta_entry)
    (MONITOR : Nat) (fasta_file_names : List Str) (kmer_length component_val : Int)
    (sStrand : Bool) (args : ArgProcessor) :
    ∃ before,
      constructDeBruijnGraph c fs MONITOR fasta_file_names kmer_length component_val sStrand args
        = ((mergedCalls c fs sStrand fasta_file_names).foldl c.add_sequence
              (c.graph_new kmer_length),
            before ++ [serializationCall args component_val sStrand,
              Event.cout (if args.isArgSet "--toString".toList then
                  c.toString ((mergedCalls c fs sStrand fasta_file_names).foldl c.add_sequence
                    (c.graph_new kmer_length))
                else
                  c.toChrysalisFormat ((mergedCalls c fs sStrand fasta_file_names).foldl
                    c.add_sequence (c.graph_new kmer_length)) component_val sStrand)])
      ∧ graphsBuilt before = [kmer_length]
      ∧ addedSequences before = mergedCalls c fs sStrand fasta_file_names
      ∧ mergedCalls c fs sStrand fasta_file_names
          = fasta_file_names.flatMap (fun name => (fs name).flatMap (fun fe =>
              (c.tokenize fe.sequence "X".toList).flatMap (fun bundle =>
                if sStrand then [normalize c bundle]
                else [normalize c bundle, c.revcomp (normalize c bundle)])))
      ∧ serializations before = []
      ∧ standardOutput before = []
      ∧ filesOpened before = fasta_file_names := by
  obtain ⟨evs, h, ha, hg, hs, ho, hf⟩ := merged_files_eq c fs MONITOR sStrand
    fasta_file_names (c.graph_new kmer_length) [Event.graph_new kmer_length]
  refine ⟨[Event.graph_new kmer_length] ++ evs, ?_, ?_, ?_, ?_, ?_, ?_, ?_⟩
  · unfold constructDeBruijnGraph serializationCall
    simp only [h]
    cases args.isArgSet "--toString".toList <;> simp
  · simp only [graphsBuilt_append, hg]; simp [graphsBuilt]
  · simp only [addedSequences_append, ha]; simp [addedSequences]
  · rfl
  · simp only [serializations_append, hs]; simp [serializations]
  · simp only [standardOutput_append, ho]; simp [standardOutput]
  · simp only [filesOpened_append, hf]; simp [filesOpened]

/-- C2 as stated fails: with `--toString` set the one serialization of the
merged graph is the call `toString()`, no call of `toChrysalisFormat` is made,
and the whole run is the same for the component identifiers 7 and 8. -/
theorem constructDeBruijnGraph_toString_without_component :
    serializations (constructDeBruijnGraph exampleModel
        (exampleFiles [{ accession := "c_1".toList, sequence := "ACGT".toList }]) 0
        ["reads.fa".toList] 3 7 true (exampleArgs [("--toString".toList, [])])).2
      = [Event.toString]
    ∧ serializations (constructDeBruijnGraph exampleModel
        (exampleFiles [{ accession := "c_1".toList, sequence := "ACGT".toList }]) 0
        ["reads.fa".toList] 3 7 true (exampleArgs [("--toString".toList, [])])).2
      ≠ [Event.toChrysalisFormat 7 true]
    ∧ constructDeBruijnGraph exampleModel
        (exampleFiles [{ accession := "c_1".toList, sequence := "ACGT".toList }]) 0
        ["reads.fa".toList] 3 7 true (exampleArgs [("--toString".toList, [])])
      = constructDeBruijnGraph exampleModel
        (exampleFiles [{ accession := "c_1".toList, sequence := "ACGT".toList }]) 0
        ["reads.fa".toList] 3 8 true (exampleArgs [("--toString".toList, [])]) := by
  decide

/-- C3, for well-formed accessions: in per-record mode, when every accession
has a second underscore-separated token, then under every team and every
schedule of the parallel region the run completes, one fresh graph is
constructed per record, and exactly one block is written per record (the
blocks written are, up to their order, the blocks of the records); the block of
a record is the serialization of the graph built from a fresh graph and that
record's bundles alone, and it is the whole output of a run whose only record
it is.  For every team of at least one thread per file such a run exists, and
no schedule of a region is longer than three moves per record and one per
thread. -/
theorem createGraphPerRecord_one_block_per_record (c : Collaborators G)
    (fs : Str → List Fasta_entry) (MONITOR : Nat) (fasta_file_names : List Str)
    (kmer_length : Int) (sStrand : Bool) (args : ArgProcessor)
    (h : ∀ name ∈ fasta_file_names, ∀ fe ∈ fs name, secondToken c fe.accession ≠ none) :
    (∀ plan r,
        createGraphPerRecord.parallel c fs MONITOR fasta_file_names kmer_length sStrand args plan
          = some r →
        r.ok = true
        ∧ graphsBuilt r.log = (fasta_file_names.flatMap fs).map (fun _ => kmer_length)
        ∧ (serializations r.log).Perm ((fasta_file_names.flatMap fs).map (fun fe =>
            serializationCall args (componentId c fe.accession) sStrand))
        ∧ (standardOutput r.log).Perm ((fasta_file_names.flatMap fs).map (fun fe =>
            recordBlock c kmer_length sStrand args (componentId c fe.accession) fe.sequence)))
      ∧ (∀ teams : List Nat, teams.length = fasta_file_names.length →
          (∀ team ∈ teams, 1 ≤ team) →
          ∃ schedules r, schedules.length = teams.length
            ∧ createGraphPerRecord.parallel c fs MONITOR fasta_file_names kmer_length sStrand
                args (teams.zip schedules) = some r)
      ∧ (∀ name ∈ fasta_file_names, ∀ (team : Nat) (schedule : List Nat) (log : List Event)
          (s : Region G),
          createGraphPerRecord.run c MONITOR kmer_length sStrand args schedule
            (createGraphPerRecord.enter (fs name) team log) = some s →
          schedule.length ≤ 3 * (fs name).length + team)
      ∧ (∀ fe ∈ fasta_file_names.flatMap fs, ∀ (name : Str) plan r,
          createGraphPerRecord.parallel c (fun _ => [fe]) MONITOR [name] kmer_length sStrand
            args plan = some r →
          standardOutput r.log
            = [recordBlock c kmer_length sStrand args (componentId c fe.accession)
                fe.sequence]) := by
  have hfile := fun name => fileEvents_facts MONITOR name
  have main : ∀ (fs' : Str → List Fasta_entry) (names : List Str),
      (∀ name ∈ names, ∀ fe ∈ fs' name, secondToken c fe.accession ≠ none) →
      ∀ plan r,
        createGraphPerRecord.parallel c fs' MONITOR names kmer_length sStrand args plan
          = some r →
        r.ok = true
        ∧ graphsBuilt r.log = (names.flatMap fs').map (fun _ => kmer_length)
        ∧ (serializations r.log).Perm ((names.flatMap fs').map (fun fe =>
            serializationCall args (componentId c fe.accession) sStrand))
        ∧ (standardOutput r.log).Perm ((names.flatMap fs').map (fun fe =>
            recordBlock c kmer_length sStrand args (componentId c fe.accession)
              fe.sequence)) := by
    intro fs' names hwf plan r hr
    unfold createGraphPerRecord.parallel at hr
    obtain ⟨hok, hg⟩ := parallelFiles_observation c fs' MONITOR kmer_length sStrand args
      (fun log => ((graphsBuilt log : List Int) : Multiset Int)) (fun _ => {kmer_length})
      (fun l₁ l₂ => by simp [graphsBuilt_append])
      (fun name => by simp [(hfile name).2.1])
      (fun fe token log htok => by
        have := (build_emit_facts c MONITOR kmer_length sStrand args fe token log htok).1
        rw [graphsBuilt_append] at this
        simp only [Multiset.coe_add, this]
        rfl)
      names [] plan r hwf hr
    obtain ⟨_, hs⟩ := parallelFiles_observation c fs' MONITOR kmer_length sStrand args
      (fun log => ((serializations log : List Event) : Multiset Event))
      (fun fe => {serializationCall args (componentId c fe.accession) sStrand})
      (fun l₁ l₂ => by simp [serializations_append])
      (fun name => by simp [(hfile name).2.2.1])
      (fun fe token log htok => by
        have := (build_emit_facts c MONITOR kmer_length sStrand args fe token log htok).2.1
        rw [serializations_append] at this
        simp only [Multiset.coe_add, this]
        rfl)
      names [] plan r hwf hr
    obtain ⟨_, ho⟩ := parallelFiles_observation c fs' MONITOR kmer_length sStrand args
      (fun log => ((standardOutput log : List Str) : Multiset Str))
      (fun fe => {recordBlock c kmer_length sStrand args (componentId c fe.accession)
        fe.sequence})
      (fun l₁ l₂ => by simp [standardOutput_append])
      (fun name => by simp [(hfile name).2.2.2.1])
      (fun fe token log htok => by
        have := (build_emit_facts c MONITOR kmer_length sStrand args fe token log htok).2.2
        rw [standardOutput_append] at this
        simp only [Multiset.coe_add, this]
        rfl)
      names [] plan r hwf hr
    rw [sum_map_singleton] at hg hs ho
    simp only [graphsBuilt, serializations, standardOutput, List.filterMap_nil, List.filter_nil,
      Multiset.coe_nil, zero_add] at hg hs ho
    refine ⟨hok, ?_, Multiset.coe_eq_coe.mp hs, Multiset.coe_eq_coe.mp ho⟩
    have hperm := Multiset.coe_eq_coe.mp hg
    rw [List.map_const'] at hperm ⊢
    exact List.perm_replicate.mp hperm
  refine ⟨main fs fasta_file_names h, ?_, ?_, ?_⟩
  · intro teams hlen hteams
    exact parallelFiles_execution c fs MONITOR kmer_length sStrand args fasta_file_names []
      teams hlen hteams h
  · intro name hname team schedule log s hrun
    obtain ⟨_, _, _, hm⟩ := run_keeps_sound c MONITOR kmer_length sStrand args schedule _ s
      hrun rfl (enter_sound c (fs name) team log (h name hname))
    rw [movesLeft_enter] at hm
    omega
  · intro fe hfe name plan r hr
    have hwf : secondToken c fe.accession ≠ none := by
      obtain ⟨name', hn, hmem⟩ := List.mem_flatMap.mp hfe
      exact h name' hn fe hmem
    obtain ⟨_, _, _, ho⟩ := main (fun _ => [fe]) [name]
      (by intro _ _ fe' hfe'; rw [List.mem_singleton.mp hfe']; exact hwf) plan r hr
    simpa using ho

/-- Witness of C3: two records with well-formed accessions; for a team of two
threads an execution exists, and under one schedule of that team the graph of
`c_2` is serialized before the graph of `c_1`. -/
theorem createGraphPerRecord_one_block_per_record_witness :
    (∀ name ∈ ["reads.fa".toList],
        ∀ fe ∈ exampleFiles [{ accession := "c_1".toList, sequence := "AAAAXTTTT".toList },
            { accession := "c_2".toList, sequence := "ACGTACGT".toList }] name,
          secondToken exampleModel fe.accession ≠ none)
    ∧ (∃ schedules r, schedules.length = [2].length
        ∧ createGraphPerRecord.parallel exampleModel
            (exampleFiles [{ accession := "c_1".toList, sequence := "AAAAXTTTT".toList },
              { accession := "c_2".toList, sequence := "ACGTACGT".toList }]) 0
            ["reads.fa".toList] 2 true (exampleArgs []) ([2].zip schedules) = some r)
    ∧ (createGraphPerRecord.parallel exampleModel
          (exampleFiles [{ accession := "c_1".toList, sequence := "AAAAXTTTT".toList },
            { accession := "c_2".toList, sequence := "ACGTACGT".toList }]) 0
          ["reads.fa".toList] 2 true (exampleArgs []) [(2, [0, 1, 1, 1, 0, 0, 0, 1])]).map
        (fun r => serializations r.log)
      = some [Event.toChrysalisFormat 2 true, Event.toChrysalisFormat 1 true] :=
  ⟨by decide,
    (createGraphPerRecord_one_block_per_record exampleModel
      (exampleFiles [{ accession := "c_1".toList, sequence := "AAAAXTTTT".toList },
        { accession := "c_2".toList, sequence := "ACGTACGT".toList }]) 0
      ["reads.fa".toList] 2 true (exampleArgs []) (by decide)).2.1 [2] rfl (by decide),
    by decide⟩

/-- C3 as stated fails: for a file whose only record has the accession `comp`
(no underscore), the run stops at the index `acc_pts[1]` and no block is
written, so the number of blocks is not the number of records; so it is with a
team of one thread and with a team of two. -/
theorem createGraphPerRecord_no_block_for_malformed_accession :
    (createGraphPerRecord exampleModel
        (exampleFiles [{ accession := "comp".toList, sequence := "ACGT".toList }]) 0
        ["reads.fa".toList] 2 true (exampleArgs [])).ok = false
    ∧ standardOutput (createGraphPerRecord exampleModel
        (exampleFiles [{ accession := "comp".toList, sequence := "ACGT".toList }]) 0
        ["reads.fa".toList] 2 true (exampleArgs [])).log = []
    ∧ (standardOutput (createGraphPerRecord exampleModel
        (exampleFiles [{ accession := "comp".toList, sequence := "ACGT".toList }]) 0
        ["reads.fa".toList] 2 true (exampleArgs [])).log).length
      ≠ (exampleFiles [{ accession := "comp".toList, sequence := "ACGT".toList }]
          "reads.fa".toList).length
    ∧ createGraphPerRecord.parallel exampleModel
        (exampleFiles [{ accession := "comp".toList, sequence := "ACGT".toList }]) 0
        ["reads.fa".toList] 2 true (exampleArgs []) [(2, [1, 1])]
      = some { log := [Event.fasta_reader "reads.fa".toList], ok := false } := by
  decide

/-- C8, evaluated: with the records `c_1`, `comp7`, `c_2` the run reaches the
unchecked index `acc_pts[1]` at `comp7`: it does not complete, nothing is
written to standard error, `fastaToDeBruijn` returns no status, and the block
of `c_2`, which a run without `comp7` writes, is missing from the output. -/
theorem createGraphPerRecord_unchecked_index :
    (createGraphPerRecord exampleModel
        (exampleFiles [{ accession := "c_1".toList, sequence := "ACGT".toList },
          { accession := "comp7".toList, sequence := "ACGT".toList },
          { accession := "c_2".toList, sequence := "TTTT".toList }]) 0
        ["reads.fa".toList] 2 true (exampleArgs [])).ok = false
    ∧ standardError (createGraphPerRecord exampleModel
        (exampleFiles [{ accession := "c_1".toList, sequence := "ACGT".toList },
          { accession := "comp7".toList, sequence := "ACGT".toList },
          { accession := "c_2".toList, sequence := "TTTT".toList }]) 0
        ["reads.fa".toList] 2 true (exampleArgs [])).log = []
    ∧ (standardOutput (createGraphPerRecord exampleModel
        (exampleFiles [{ accession := "c_1".toList, sequence := "ACGT".toList },
          { accession := "comp7".toList, sequence := "ACGT".toList },
          { accession := "c_2".toList, sequence := "TTTT".toList }]) 0
        ["reads.fa".toList] 2 true (exampleArgs [])).log).length = 1
    ∧ (standardOutput (createGraphPerRecord exampleModel
        (exampleFiles [{ accession := "c_1".toList, sequence := "ACGT".toList },
          { accession := "c_2".toList, sequence := "TTTT".toList }]) 0
        ["reads.fa".toList] 2 true (exampleArgs [])).log).length = 2
    ∧ (fastaToDeBruijn exampleModel
        (exampleFiles [{ accession := "c_1".toList, sequence := "ACGT".toList },
          { accession := "comp7".toList, sequence := "ACGT".toList },
          { accession := "c_2".toList, sequence := "TTTT".toList }])
        (exampleArgs [("--fasta".toList, "reads.fa".toList), ("-K".toList, "2".toList),
          ("--SS".toList, []), ("--graph_per_record".toList, [])])).1 = none := by
  decide

/-- C10: for a single file with a single record whose accession yields the
component identifier `component_val`, `createGraphPerRecord` and
`constructDeBruijnGraph` called with `component_val` make the same
`add_sequence` calls, build the same graph (one each), make the same
serialization call and write the same output, with and without `--toString`. -/
theorem createGraphPerRecord_agrees_with_constructDeBruijnGraph (c : Collaborators G)
    (fs : Str → List Fasta_entry) (MONITOR : Nat) (name : Str) (fe : Fasta_entry)
    (kmer_length component_val : Int) (sStrand : Bool) (args : ArgProcessor) (token : Str)
    (hfs : fs name = [fe]) (htoken : secondToken c fe.accession = some token)
    (hid : atoi token = component_val) :
    (createGraphPerRecord c fs MONITOR [name] kmer_length sStrand args).ok = true
      ∧ addedSequences (createGraphPerRecord c fs MONITOR [name] kmer_length sStrand args).log
        = addedSequences (constructDeBruijnGraph c fs MONITOR [name] kmer_length component_val
            sStrand args).2
      ∧ graphsBuilt (createGraphPerRecord c fs MONITOR [name] kmer_length sStrand args).log
        = graphsBuilt (constructDeBruijnGraph c fs MONITOR [name] kmer_length component_val
            sStrand args).2
      ∧ (createGraphPerRecord.build c MONITOR kmer_length sStrand [] fe.sequence).1
        = (constructDeBruijnGraph c fs MONITOR [name] kmer_length component_val sStrand args).1
      ∧ serializations (createGraphPerRecord c fs MONITOR [name] kmer_length sStrand args).log
        = serializations (constructDeBruijnGraph c fs MONITOR [name] kmer_length component_val
            sStrand args).2
      ∧ standardOutput (createGraphPerRecord c fs MONITOR [name] kmer_length sStrand args).log
        = standardOutput (constructDeBruijnGraph c fs MONITOR [name] kmer_length component_val
            sStrand args).2 := by
  have hwf : ∀ name' ∈ [name], ∀ fe' ∈ fs name', secondToken c fe'.accession ≠ none := by
    intro name' hn fe' hfe'
    rw [List.mem_singleton.mp hn, hfs] at hfe'
    rw [List.mem_singleton.mp hfe', htoken]
    simp
  obtain ⟨evs, he, ha, hg, hs, ho, _⟩ := perRecord_files_eq c fs MONITOR kmer_length
    sStrand args [name] [] hwf
  obtain ⟨before, hm, hg', ha', _, hs', ho', _⟩ := merged_run_eq c fs MONITOR
    [name] kmer_length component_val sStrand args
  obtain ⟨evs', hb, _, _⟩ := perRecord_build_eq c MONITOR kmer_length sStrand []
    fe.sequence
  obtain ⟨ka, kg, ks, ko, _⟩ := serializationCall_facts args component_val sStrand
  have hcid : componentId c fe.accession = component_val := by simp [componentId, htoken, hid]
  have hcalls : mergedCalls c fs sStrand [name] = recordCalls c sStrand fe.sequence := by
    simp [mergedCalls, hfs]
  have hflat : [name].flatMap fs = [fe] := by simp [hfs]
  rw [hflat] at hg hs ho
  unfold createGraphPerRecord
  rw [he, hm, hb]
  refine ⟨rfl, ?_, ?_, ?_, ?_, ?_⟩
  · simp only [List.nil_append, pair_eq_append, ha, addedSequences_append, ha', ka]
    simp [addedSequences]
  · simp only [List.nil_append, pair_eq_append, hg, graphsBuilt_append, hg', kg, hfs]
    simp [graphsBuilt]
  · simp [recordGraph, hcalls]
  · simp only [List.nil_append, pair_eq_append, hs, serializations_append, hs', ks, hfs]
    simp [serializations, hcid]
  · simp only [List.nil_append, pair_eq_append, ho, standardOutput_append, ho', ko, hfs]
    simp [standardOutput, hcid, recordBlock, recordGraph, hcalls]

/-- Witness of C10: the single record `c_7` in the single file `reads.fa`. -/
theorem createGraphPerRecord_agrees_with_constructDeBruijnGraph_witness :
    exampleFiles [{ accession := "c_7".toList, sequence := "ACGTXGG".toList }] "reads.fa".toList
      = [{ accession := "c_7".toList, sequence := "ACGTXGG".toList }]
    ∧ secondToken exampleModel "c_7".toList = some "7".toList
    ∧ atoi "7".toList = 7
    ∧ standardOutput (createGraphPerRecord exampleModel
        (exampleFiles [{ accession := "c_7".toList, sequence := "ACGTXGG".toList }]) 0
        ["reads.fa".toList] 2 false (exampleArgs [])).log
      = standardOutput (constructDeBruijnGraph exampleModel
        (exampleFiles [{ accession := "c_7".toList, sequence := "ACGTXGG".toList }]) 0
        ["reads.fa".toList] 2 7 false (exampleArgs [])).2 :=
  ⟨by decide, by decide, by decide,
    (createGraphPerRecord_agrees_with_constructDeBruijnGraph exampleModel
      (exampleFiles [{ accession := "c_7".toList, sequence := "ACGTXGG".toList }]) 0
      "reads.fa".toList { accession := "c_7".toList, sequence := "ACGTXGG".toList } 2 7 false
      (exampleArgs []) "7".toList (by decide) (by decide) (by decide)).2.2.2.2.2⟩

/-! ## `atoi` on decimal representations -/

theorem digitChar_toNat (d : Nat) (h : d < 10) : (Char.ofNat (48 + d)).toNat = 48 + d := by
  interval_cases d <;> rfl

theorem atoi_digits_eq_foldl (ds : Str) (acc : Nat)
    (h : ∀ ch ∈ ds, 48 ≤ ch.toNat ∧ ch.toNat ≤ 57) :
    atoi.digits acc ds = ds.foldl (fun a ch => a * 10 + (ch.toNat - 48)) acc := by
  induction ds generalizing acc with
  | nil => rfl
  | cons ch rest ih =>
    have hch := h ch (List.mem_cons_self _ _)
    simp only [atoi.digits, hch, and_self, if_true, List.foldl_cons]
    exact ih _ (fun ch' h' => h ch' (List.mem_cons_of_mem _ h'))

theorem decimalNat_digits (fuel m : Nat) (h : m < 10 ^ (fuel + 1)) :
    (∀ ch ∈ decimalNat fuel m, 48 ≤ ch.toNat ∧ ch.toNat ≤ 57)
      ∧ (decimalNat fuel m).foldl (fun a ch => a * 10 + (ch.toNat - 48)) 0 = m
      ∧ decimalNat fuel m ≠ [] := by
  induction fuel generalizing m with
  | zero =>
    have hm : m < 10 := by simpa using h
    have hmod : m % 10 = m := Nat.mod_eq_of_lt hm
    simp only [decimalNat, hmod]
    have := digitChar_toNat m hm
    refine ⟨?_, ?_, by simp⟩
    · intro ch hch
      rw [List.mem_singleton.mp hch, this]; omega
    · simp [this]
  | succ fuel ih =>
    by_cases hm : m < 10
    · simp only [decimalNat, hm, if_true]
      have := digitChar_toNat m hm
      refine ⟨?_, ?_, by simp⟩
      · intro ch hch
        rw [List.mem_singleton.mp hch, this]; omega
      · simp [this]
    · simp only [decimalNat, hm, if_false]
      have hdiv : m / 10 < 10 ^ (fuel + 1) := by
        rw [Nat.div_lt_iff_lt_mul (by norm_num)]
        calc m < 10 ^ (fuel + 1 + 1) := h
          _ = 10 ^ (fuel + 1) * 10 := by ring
      obtain ⟨h₁, h₂, _⟩ := ih (m / 10) hdiv
      have hd := digitChar_toNat (m % 10) (Nat.mod_lt _ (by norm_num))
      refine ⟨?_, ?_, by simp⟩
      · intro ch hch
        rcases List.mem_append.mp hch with hch | hch
        · exact h₁ ch hch
        · rw [List.mem_singleton.mp hch, hd]; omega
      · rw [List.foldl_append, h₂]
        simp only [List.foldl_cons, List.foldl_nil, hd]
        omega

theorem atoi_unsigned (ch : Char) (rest : Str) (hch : 48 ≤ ch.toNat ∧ ch.toNat ≤ 57) :
    atoi (ch :: rest)
      = toInt32 (max (-(2 ^ 63)) (min (2 ^ 63 - 1) (atoi.digits 0 (ch :: rest) : Int))) := by
  have hspace : isspace ch = false := by
    simp only [isspace, Bool.or_eq_false_iff, decide_eq_false_iff_not, Bool.and_eq_false_iff]
    omega
  have hminus : ch ≠ '-' := by
    intro h; rw [h] at hch; revert hch; decide
  have hplus : ch ≠ '+' := by
    intro h; rw [h] at hch; revert hch; decide
  simp only [atoi, List.dropWhile_cons, hspace, Bool.false_eq_true, if_false]
  split
  · rename_i heq; injection heq with h1 _; exact absurd h1 hminus
  · rename_i heq; injection heq with h1 _; exact absurd h1 hplus
  · rfl

theorem atoi_decimal (n : Int) (hlo : -(2 ^ 31) ≤ n) (hhi : n < 2 ^ 31) :
    atoi (decimal n) = n := by
  obtain ⟨hdig, hval, hne⟩ := decimalNat_digits n.natAbs n.natAbs
    (lt_trans (Nat.lt_pow_self (by norm_num) _)
      (Nat.pow_lt_pow_right (by norm_num) (Nat.lt_succ_self _)))
  obtain ⟨ch, rest, hcons⟩ := List.exists_cons_of_ne_nil hne
  have hch := hdig ch (by rw [hcons]; exact List.mem_cons_self _ _)
  have hdigits : atoi.digits 0 (decimalNat n.natAbs n.natAbs) = n.natAbs := by
    rw [atoi_digits_eq_foldl _ _ hdig, hval]
  by_cases hneg : n < 0
  · have hminus : isspace '-' = false := by decide
    simp only [atoi, decimal, hneg, if_true, List.singleton_append, List.dropWhile_cons, hminus]
    simp only [Bool.false_eq_true, if_false, hdigits]
    simp only [toInt32]
    omega
  · have hun := atoi_unsigned ch rest hch
    rw [← hcons, hdigits] at hun
    simp only [decimal, hneg, if_false, List.nil_append, hun, toInt32]
    omega

/-- C7, for identifiers in the range of `int`: in per-record mode, for a record
whose accession has as second underscore-separated token the decimal
representation of an integer `n` with -2^31 ≤ n < 2^31, the turn of the record
loop for that record serializes its graph once, and when `--toString` is not
set the call is `toChrysalisFormat(n, sStrand)` on that record's graph; this
holds for every command line (so whatever `-C` is) and whatever the other
tokens of the accession are. -/
theorem createGraphPerRecord_component_id (c : Collaborators G) (MONITOR : Nat)
    (kmer_length : Int) (sStrand : Bool) (args : ArgProcessor) (log : List Event)
    (fe : Fasta_entry) (rest : List Fasta_entry) (n : Int)
    (hsecond : (c.tokenize fe.accession "_".toList)[1]? = some (decimal n))
    (hlo : -(2 ^ 31) ≤ n) (hhi : n < 2 ^ 31) :
    componentId c fe.accession = n
      ∧ ∃ evs, createGraphPerRecord.entries c MONITOR kmer_length sStrand args log (fe :: rest)
          = createGraphPerRecord.entries c MONITOR kmer_length sStrand args
              (log ++ [Event.graph_new kmer_length] ++ evs
                ++ [if args.isArgSet "--toString".toList then Event.toString
                    else Event.toChrysalisFormat n sStrand,
                  Event.cout (if args.isArgSet "--toString".toList then
                      c.toString (recordGraph c kmer_length sStrand fe.sequence)
                    else
                      c.toChrysalisFormat (recordGraph c kmer_length sStrand fe.sequence) n
                        sStrand)])
              rest
        ∧ addedSequences evs = recordCalls c sStrand fe.sequence
        ∧ serializations evs = [] ∧ standardOutput evs = [] := by
  have hn : atoi (decimal n) = n := atoi_decimal n hlo hhi
  obtain ⟨evs, h, ha, _, hs, ho, _⟩ := perRecord_entries_cons c MONITOR kmer_length
    sStrand args log fe rest (decimal n) hsecond
  refine ⟨by unfold componentId secondToken; rw [hsecond]; exact hn, evs, ?_, ha, hs, ho⟩
  rw [h, hn]
  rfl

/-- Witness of C7: the accession `c_42_seq7`. -/
theorem createGraphPerRecord_component_id_witness :
    (exampleModel.tokenize "c_42_seq7".toList "_".toList)[1]? = some (decimal 42)
    ∧ componentId exampleModel "c_42_seq7".toList = 42 :=
  ⟨by decide,
    (createGraphPerRecord_component_id exampleModel 0 3 true
      (exampleArgs [("-C".toList, "5".toList)]) []
      { accession := "c_42_seq7".toList, sequence := "ACGT".toList } [] 42
      (by decide) (by decide) (by decide)).1⟩

/-- C7 as stated fails outside the range of `int`: the second token of the
accession `c_4294967297` is the decimal representation of 4294967297, and the
identifier passed to `toChrysalisFormat` is 1. -/
theorem createGraphPerRecord_component_id_overflow :
    (exampleModel.tokenize "c_4294967297".toList "_".toList)[1]? = some (decimal 4294967297)
    ∧ serializations (createGraphPerRecord exampleModel
        (exampleFiles [{ accession := "c_4294967297".toList, sequence := "ACGT".toList }]) 0
        ["reads.fa".toList] 3 true (exampleArgs [])).log
      = [Event.toChrysalisFormat 1 true] := by
  decide

end DriverClaims

/-! ## Counting in the graph of the specification -/

theorem lookup_increment {κ : Type} [DecidableEq κ] (x y : κ) (table : List (κ × Nat)) :
    lookup x (increment y table) = lookup x table + (if y = x then 1 else 0) := by
  induction table with
  | nil => simp [increment, lookup]
  | cons entry rest ih =>
    obtain ⟨key, n⟩ := entry
    by_cases h₁ : key = y
    · by_cases h₂ : key = x
      · subst h₁; subst h₂; simp [increment, lookup]
      · subst h₁; simp [increment, lookup, h₂]
    · by_cases h₂ : key = x
      · have h₃ : ¬ y = x := fun h => h₁ (h₂.trans h.symm)
        have h₄ : ¬ x = y := fun h => h₃ h.symm
        subst h₂
        simp [increment, lookup, h₃, h₄]
      · simp [increment, lookup, h₁, h₂, ih]

theorem add_position_kmer_length (k : Nat) (seq : Str) (g : DeBruijnGraph)
    (i : Nat) : (DeBruijnGraph.add_position k seq g i).kmer_length = g.kmer_length := by
  unfold DeBruijnGraph.add_position
  split <;> rfl

theorem add_position_nodeCount (k : Nat) (seq : Str) (g : DeBruijnGraph)
    (i : Nat) (x : Str) :
    (DeBruijnGraph.add_position k seq g i).nodeCount x
      = g.nodeCount x + (if substr seq i k = x then 1 else 0) := by
  unfold DeBruijnGraph.add_position DeBruijnGraph.nodeCount
  split <;> simp [lookup_increment]

theorem add_position_edgeCount (k : Nat) (seq : Str) (g : DeBruijnGraph)
    (i : Nat) (x y : Str) :
    (DeBruijnGraph.add_position k seq g i).edgeCount x y
      = g.edgeCount x y
        + (if i + 1 + k ≤ seq.length ∧ substr seq i k = x ∧ substr seq (i + 1) k = y
            then 1 else 0) := by
  unfold DeBruijnGraph.add_position DeBruijnGraph.edgeCount
  split
  · rename_i h
    simp [lookup_increment, h]
  · rename_i h
    simp [h]

theorem foldl_add_position (k : Nat) (seq : Str) (n : Nat) (g : DeBruijnGraph) :
    ((List.range n).foldl (DeBruijnGraph.add_position k seq) g).kmer_length = g.kmer_length
    ∧ (∀ x, ((List.range n).foldl (DeBruijnGraph.add_position k seq) g).nodeCount x
        = g.nodeCount x + (List.range n).countP (fun i => decide (substr seq i k = x)))
    ∧ (∀ x y, ((List.range n).foldl (DeBruijnGraph.add_position k seq) g).edgeCount x y
        = g.edgeCount x y + (List.range n).countP (fun i =>
            decide (i + 1 + k ≤ seq.length ∧ substr seq i k = x ∧ substr seq (i + 1) k = y))) := by
  induction n with
  | zero => simp
  | succ n ih =>
    obtain ⟨h₁, h₂, h₃⟩ := ih
    rw [List.range_succ, List.foldl_append]
    simp only [List.foldl_cons, List.foldl_nil, List.countP_append]
    refine ⟨?_, ?_, ?_⟩
    · rw [add_position_kmer_length, h₁]
    · intro x
      rw [add_position_nodeCount, h₂]
      by_cases h : substr seq n k = x <;> simp [h, List.countP_cons, Nat.add_assoc]
    · intro x y
      rw [add_position_edgeCount, h₃]
      by_cases h : n + 1 + k ≤ seq.length ∧ substr seq n k = x ∧ substr seq (n + 1) k = y
      · simp only [h, and_self, if_true, List.countP_cons, List.countP_nil, decide_True]
        simp [Nat.add_assoc]
      · simp only [h, if_false, List.countP_cons, List.countP_nil, decide_False]
        simp

/-- Positions past the last full window do not count. -/
theorem countP_range_window (len k : Nat) (hk : 1 ≤ k) (q : Nat → Bool)
    (hq : ∀ i, q i = true → i + k ≤ len) :
    (List.range (len + 1)).countP q = (List.range (len + 1 - k)).countP q := by
  have hsplit : len + 1 = (len + 1 - k) + (len + 1 - (len + 1 - k)) := by omega
  conv_lhs => rw [hsplit, List.range_add, List.countP_append]
  have hzero : List.countP q
      (List.map (fun x => len + 1 - k + x) (List.range (len + 1 - (len + 1 - k)))) = 0 := by
    rw [List.countP_eq_zero]
    intro i hi
    obtain ⟨j, _, rfl⟩ := List.mem_map.mp hi
    intro hqi
    have := hq _ hqi
    omega
  rw [hzero, Nat.add_zero]


theorem add_sequence_adds_occurrences (g : DeBruijnGraph) (seq : Str)
    (hk : 1 ≤ g.kmer_length) :
    (g.add_sequence seq).kmer_length = g.kmer_length
    ∧ (∀ x, (g.add_sequence seq).nodeCount x
        = g.nodeCount x + occurrences g.kmer_length.toNat x seq)
    ∧ (∀ x y, (g.add_sequence seq).edgeCount x y
        = g.edgeCount x y + adjacencies g.kmer_length.toNat x y seq) := by
  have hpos : ¬ g.kmer_length ≤ 0 := by omega
  have hk' : 1 ≤ g.kmer_length.toNat := by omega
  obtain ⟨h₁, h₂, h₃⟩ := foldl_add_position g.kmer_length.toNat seq
    (seq.length + 1 - g.kmer_length.toNat) g
  simp only [DeBruijnGraph.add_sequence, hpos, if_false]
  refine ⟨h₁, ?_, ?_⟩
  · intro x
    rw [h₂ x, occurrences, countP_range_window seq.length _ hk' _
      (by intro i hi; exact (of_decide_eq_true hi).1)]
    congr 1
    apply List.countP_congr
    intro i hi
    have : i + g.kmer_length.toNat ≤ seq.length := by
      have := List.mem_range.mp hi
      omega
    simp [this]
  · intro x y
    rw [h₃ x y, adjacencies, countP_range_window seq.length _ hk' _
      (by intro i hi; have := (of_decide_eq_true hi).1; omega)]

/-- A sequence shorter than k leaves the graph as it is. -/
theorem add_sequence_short (g : DeBruijnGraph) (seq : Str)
    (h : (seq.length : Int) < g.kmer_length) : g.add_sequence seq = g := by
  unfold DeBruijnGraph.add_sequence
  split
  · rfl
  · have : seq.length + 1 - g.kmer_length.toNat = 0 := by omega
    simp [this]

theorem foldl_add_sequence_adds_occurrences (seqs : List Str) (g : DeBruijnGraph)
    (hk : 1 ≤ g.kmer_length) :
    (seqs.foldl DeBruijnGraph.add_sequence g).kmer_length = g.kmer_length
    ∧ (∀ x, (seqs.foldl DeBruijnGraph.add_sequence g).nodeCount x
        = g.nodeCount x + (seqs.map (occurrences g.kmer_length.toNat x)).sum)
    ∧ (∀ x y, (seqs.foldl DeBruijnGraph.add_sequence g).edgeCount x y
        = g.edgeCount x y + (seqs.map (adjacencies g.kmer_length.toNat x y)).sum) := by
  induction seqs generalizing g with
  | nil => simp
  | cons seq rest ih =>
    obtain ⟨h₁, h₂, h₃⟩ := add_sequence_adds_occurrences g seq hk
    obtain ⟨k₁, k₂, k₃⟩ := ih (g.add_sequence seq) (by rw [h₁]; exact hk)
    simp only [List.foldl_cons, List.map_cons, List.sum_cons]
    refine ⟨by rw [k₁, h₁], ?_, ?_⟩
    · intro x; rw [k₂ x, h₂ x, h₁]; omega
    · intro x y; rw [k₃ x y, h₃ x y, h₁]; omega

/-! ## Reverse complement -/

theorem complement_complement (ch : Char) : complement (complement ch) = ch := by
  unfold complement
  by_cases hA : ch = 'A'
  · subst hA; decide
  by_cases hT : ch = 'T'
  · subst hT; decide
  by_cases hC : ch = 'C'
  · subst hC; decide
  by_cases hG : ch = 'G'
  · subst hG; decide
  simp [hA, hT, hC, hG]

theorem revcomp_revcomp (seq : Str) : revcomp (revcomp seq) = seq := by
  have h : complement ∘ complement = id := by
    funext ch; exact complement_complement ch
  simp [revcomp, List.map_reverse, h]

theorem revcomp_length (seq : Str) : (revcomp seq).length = seq.length := by
  simp [revcomp]

theorem revcomp_eq_iff (a b : Str) : revcomp a = b ↔ a = revcomp b := by
  constructor
  · intro h; rw [← h, revcomp_revcomp]
  · intro h; rw [h, revcomp_revcomp]

theorem substr_reverse (seq : Str) (i k : Nat) (h : i + k ≤ seq.length) :
    substr seq.reverse i k = (substr seq (seq.length - k - i) k).reverse := by
  unfold substr
  rw [List.drop_reverse, List.take_reverse, List.drop_take]
  have h₁ : (List.take (seq.length - i) seq).length = seq.length - i := by
    simp
  rw [h₁]
  have h₂ : seq.length - i - k = seq.length - k - i := by omega
  have h₃ : seq.length - i - (seq.length - k - i) = k := by omega
  rw [h₂, h₃]

theorem substr_revcomp (seq : Str) (i k : Nat) (h : i + k ≤ seq.length) :
    substr (revcomp seq) i k = revcomp (substr seq (seq.length - k - i) k) := by
  unfold revcomp
  rw [substr_reverse _ _ _ (by simpa using h)]
  simp [substr, List.map_take, List.map_drop]

theorem countP_range_reflect (m : Nat) (p : Nat → Bool) :
    (List.range m).countP p = (List.range m).countP (fun i => p (m - 1 - i)) := by
  have h := List.reverse_range' 0 m
  rw [← List.range_eq_range'] at h
  rw [← List.countP_reverse, h, List.countP_map]
  apply List.countP_congr
  intro i _
  simp


theorem occurrences_revcomp (k : Nat) (hk : 1 ≤ k) (x seq : Str) :
    occurrences k x (revcomp seq) = occurrences k (revcomp x) seq := by
  unfold occurrences
  rw [countP_range_window _ k hk _ (by intro i hi; exact (of_decide_eq_true hi).1),
    countP_range_window _ k hk _ (by intro i hi; exact (of_decide_eq_true hi).1),
    revcomp_length, countP_range_reflect (seq.length + 1 - k)
      (fun i => decide (i + k ≤ seq.length ∧ substr seq i k = revcomp x))]
  apply List.countP_congr
  intro i hi
  have hi' := List.mem_range.mp hi
  have h₁ : i + k ≤ seq.length := by omega
  have h₂ : seq.length - k - i + k ≤ seq.length := by omega
  have h₃ : seq.length + 1 - k - 1 - i = seq.length - k - i := by omega
  rw [substr_revcomp _ _ _ h₁]
  simp only [h₁, h₃, h₂, true_and, decide_eq_true_eq]
  exact revcomp_eq_iff _ _

theorem adjacencies_revcomp (k : Nat) (x y seq : Str) :
    adjacencies k x y (revcomp seq) = adjacencies k (revcomp y) (revcomp x) seq := by
  unfold adjacencies
  rw [countP_range_window _ (k + 1) (by omega) _
      (by intro i hi; have := (of_decide_eq_true hi).1; omega),
    countP_range_window _ (k + 1) (by omega) _
      (by intro i hi; have := (of_decide_eq_true hi).1; omega),
    revcomp_length, countP_range_reflect (seq.length + 1 - (k + 1))
      (fun i => decide (i + 1 + k ≤ seq.length ∧ substr seq i k = revcomp y
        ∧ substr seq (i + 1) k = revcomp x))]
  apply List.countP_congr
  intro i hi
  have hi' := List.mem_range.mp hi
  have h₁ : i + 1 + k ≤ seq.length := by omega
  have h₂ : seq.length - k - (i + 1) + 1 + k ≤ seq.length := by omega
  have h₃ : seq.length - k - i = seq.length - k - (i + 1) + 1 := by omega
  have h₄ : seq.length + 1 - (k + 1) - 1 - i = seq.length - k - (i + 1) := by omega
  rw [substr_revcomp _ _ _ (by omega : i + k ≤ seq.length),
    substr_revcomp _ _ _ (by omega : i + 1 + k ≤ seq.length)]
  simp only [h₁, h₄, h₂, true_and, decide_eq_true_eq, h₃, revcomp_eq_iff]
  exact and_comm

/-- The sum of a weight over a list in which every string is followed by its reverse complement. -/
theorem sum_map_with_revcomp (w : Str → Nat) (forward : List Str) :
    ((forward.flatMap (fun seq => [seq, revcomp seq])).map w).sum
      = (forward.map (fun seq => w seq + w (revcomp seq))).sum := by
  induction forward with
  | nil => simp
  | cons seq rest ih =>
    simp only [List.flatMap_cons, List.map_append, List.sum_append, ih, List.map_cons,
      List.sum_cons, List.map_nil, List.sum_nil]
    omega

/-! ## The bundle splitter and the sanitizer of the specification -/

theorem tokenize_ne_nil (str delimiters : Str) : tokenize str delimiters ≠ [] := by
  induction str with
  | nil => simp [tokenize]
  | cons ch rest ih =>
    unfold tokenize
    split
    · simp
    · split <;> simp

/-- No token holds a delimiter. -/
theorem tokenize_no_delimiter (str delimiters : Str) :
    ∀ token ∈ tokenize str delimiters, ∀ ch ∈ token, ch ∉ delimiters := by
  induction str with
  | nil => simp [tokenize]
  | cons ch rest ih =>
    intro token htoken
    unfold tokenize at htoken
    split at htoken
    · rcases List.mem_cons.mp htoken with h | h
      · subst h; simp
      · exact ih token h
    · rename_i hch
      split at htoken
      · rename_i heq
        exact absurd heq (tokenize_ne_nil _ _)
      · rename_i first others heq
        rcases List.mem_cons.mp htoken with h | h
        · subst h
          intro ch' hch'
          rcases List.mem_cons.mp hch' with h' | h'
          · subst h'; exact hch
          · exact ih first (by rw [heq]; exact List.mem_cons_self _ _) ch' h'
        · exact ih token (by rw [heq]; exact List.mem_cons_of_mem _ h)

/-- A string without delimiters is its own single token. -/
theorem tokenize_of_no_delimiter (str delimiters : Str) (h : ∀ ch ∈ str, ch ∉ delimiters) :
    tokenize str delimiters = [str] := by
  induction str with
  | nil => simp [tokenize]
  | cons ch rest ih =>
    have hch : ch ∉ delimiters := h ch (List.mem_cons_self _ _)
    have hrest := ih (fun ch' h' => h ch' (List.mem_cons_of_mem _ h'))
    unfold tokenize
    simp [hch, hrest]

theorem tokenize_token (str delimiters token : Str) (h : token ∈ tokenize str delimiters) :
    tokenize token delimiters = [token] :=
  tokenize_of_no_delimiter token delimiters (tokenize_no_delimiter str delimiters token h)

theorem replace_nonGATC_chars_with_A_isGATC (str : Str) :
    ∀ ch ∈ replace_nonGATC_chars_with_A str, isGATC ch = true := by
  intro ch hch
  obtain ⟨ch', _, rfl⟩ := List.mem_map.mp hch
  by_cases h : isGATC ch' = true
  · simp [h]
  · have hA : isGATC 'A' = true := by decide
    simp [h, hA]

theorem replace_nonGATC_chars_with_A_id (str : Str) (h : contains_non_gatc str = false) :
    replace_nonGATC_chars_with_A str = str := by
  unfold replace_nonGATC_chars_with_A
  unfold contains_non_gatc at h
  conv_rhs => rw [← List.map_id str]
  apply List.map_congr_left
  intro ch hch
  have : isGATC ch = true := by
    by_contra hc
    have : str.any (fun ch => !isGATC ch) = true :=
      List.any_eq_true.mpr ⟨ch, hch, by simpa using hc⟩
    rw [h] at this
    exact Bool.false_ne_true this
  simp [this]

/-- What the driver passes for a bundle is the bundle with every character
outside the alphabet replaced by the character A. -/
theorem normalize_specModel (toString : DeBruijnGraph → Str)
    (toChrysalisFormat : DeBruijnGraph → Int → Bool → Str) (bundle : Str) :
    normalize (specModel toString toChrysalisFormat) bundle
      = bundle.map (fun ch => if isGATC ch then ch else 'A') := by
  unfold normalize
  simp only [specModel]
  by_cases h : contains_non_gatc bundle = true
  · simp [h, replace_nonGATC_chars_with_A]
  · have h' : contains_non_gatc bundle = false := by simpa using h
    have := replace_nonGATC_chars_with_A_id bundle h'
    simp only [h', Bool.false_eq_true, if_false]
    exact this.symm

theorem complement_isGATC (ch : Char) (h : isGATC ch = true) : isGATC (complement ch) = true := by
  unfold isGATC at h
  simp only [Bool.or_eq_true, decide_eq_true_eq] at h
  rcases h with ((h | h) | h) | h <;> subst h <;> decide

theorem revcomp_isGATC (seq : Str) (h : ∀ ch ∈ seq, isGATC ch = true) :
    ∀ ch ∈ revcomp seq, isGATC ch = true := by
  intro ch hch
  unfold revcomp at hch
  obtain ⟨ch', hch', rfl⟩ := List.mem_map.mp (List.mem_reverse.mp hch)
  exact complement_isGATC ch' (h ch' hch')

/-- Every string the driver passes for a bundle is over the alphabet A, C, G, T. -/
theorem bundleCalls_isGATC (toString : DeBruijnGraph → Str)
    (toChrysalisFormat : DeBruijnGraph → Int → Bool → Str) (sStrand : Bool) (bundle : Str) :
    ∀ seq ∈ bundleCalls (specModel toString toChrysalisFormat) sStrand bundle,
      ∀ ch ∈ seq, isGATC ch = true := by
  have hn : ∀ ch ∈ normalize (specModel toString toChrysalisFormat) bundle, isGATC ch = true := by
    rw [normalize_specModel]
    exact replace_nonGATC_chars_with_A_isGATC bundle
  intro seq hseq
  unfold bundleCalls at hseq
  cases sStrand
  · simp only [Bool.false_eq_true, if_false, List.mem_cons, List.mem_singleton,
      List.not_mem_nil, or_false] at hseq
    rcases hseq with h | h
    · rw [h]; exact hn
    · rw [h]; exact revcomp_isGATC _ hn
  · simp only [if_true, List.mem_singleton] at hseq
    rw [hseq]; exact hn

theorem sum_map_flatMap {α : Type} (w : Str → Nat) (f : α → List Str) (l : List α) :
    ((l.flatMap f).map w).sum = (l.map (fun a => ((f a).map w).sum)).sum := by
  induction l with
  | nil => simp
  | cons a rest ih => simp [List.flatMap_cons, List.sum_append, ih]

theorem exists_pos_of_sum_pos {α : Type} (w : α → Nat) (l : List α)
    (h : 0 < (l.map w).sum) : ∃ a ∈ l, 0 < w a := by
  induction l with
  | nil => simp at h
  | cons a rest ih =>
    simp only [List.map_cons, List.sum_cons] at h
    by_cases ha : 0 < w a
    · exact ⟨a, List.mem_cons_self _ _, ha⟩
    · obtain ⟨b, hb, hw⟩ := ih (by omega)
      exact ⟨b, List.mem_cons_of_mem _ hb, hw⟩

theorem occurrences_pos (k : Nat) (x seq : Str) (h : 0 < occurrences k x seq) :
    ∃ i, i + k ≤ seq.length ∧ substr seq i k = x := by
  unfold occurrences at h
  obtain ⟨i, _, hi⟩ := List.countP_pos_iff.mp h
  exact ⟨i, of_decide_eq_true hi⟩

theorem adjacencies_pos (k : Nat) (x y seq : Str) (h : 0 < adjacencies k x y seq) :
    ∃ i, i + 1 + k ≤ seq.length ∧ substr seq i k = x ∧ substr seq (i + 1) k = y := by
  unfold adjacencies at h
  obtain ⟨i, _, hi⟩ := List.countP_pos_iff.mp h
  exact ⟨i, of_decide_eq_true hi⟩

/-- Counts of the graph obtained from a fresh graph by a list of `add_sequence` calls. -/
theorem fresh_graph_counts (k : Nat) (hk : 1 ≤ k) (seqs : List Str) :
    (∀ x, (seqs.foldl DeBruijnGraph.add_sequence (DeBruijnGraph.new k)).nodeCount x
        = (seqs.map (occurrences k x)).sum)
    ∧ (∀ x y, (seqs.foldl DeBruijnGraph.add_sequence (DeBruijnGraph.new k)).edgeCount x y
        = (seqs.map (adjacencies k x y)).sum) := by
  obtain ⟨_, h₂, h₃⟩ := foldl_add_sequence_adds_occurrences seqs (DeBruijnGraph.new k)
    (by simp [DeBruijnGraph.new]; omega)
  have hk' : (DeBruijnGraph.new k).kmer_length.toNat = k := by simp [DeBruijnGraph.new]
  rw [hk'] at h₂ h₃
  refine ⟨fun x => ?_, fun x y => ?_⟩
  · rw [h₂ x]; simp [DeBruijnGraph.new, DeBruijnGraph.nodeCount, lookup]
  · rw [h₃ x y]; simp [DeBruijnGraph.new, DeBruijnGraph.edgeCount, lookup]

theorem sum_map_le_sum_map_add {α : Type} (f g : α → Nat) (l : List α) :
    (l.map f).sum ≤ (l.map (fun a => g a + f a)).sum := by
  induction l with
  | nil => simp
  | cons a rest ih => simp only [List.map_cons, List.sum_cons]; omega

/-- Without strand-specificity every bundle adds its forward string followed by
the reverse complement of that string. -/
theorem bundleCalls_not_sStrand {G : Type} (c : Collaborators G) (bundle : Str) :
    bundleCalls c false bundle
      = (bundleCalls c true bundle).flatMap (fun seq => [seq, c.revcomp seq]) := by
  simp [bundleCalls]

theorem flatMap_flatMap {α β γ : Type} (l : List α) (f : α → List β) (g : β → List γ) :
    (l.flatMap f).flatMap g = l.flatMap (fun a => (f a).flatMap g) := by
  induction l with
  | nil => simp
  | cons a rest ih => simp [List.flatMap_cons, List.flatMap_append, ih]

theorem recordCalls_not_sStrand {G : Type} (c : Collaborators G) (sequence : Str) :
    recordCalls c false sequence
      = (recordCalls c true sequence).flatMap (fun seq => [seq, c.revcomp seq]) := by
  unfold recordCalls
  rw [flatMap_flatMap]
  have h : bundleCalls c false
      = fun bundle => (bundleCalls c true bundle).flatMap (fun seq => [seq, c.revcomp seq]) := by
    funext bundle
    exact bundleCalls_not_sStrand c bundle
  rw [h]

theorem mergedCalls_not_sStrand {G : Type} (c : Collaborators G) (fs : Str → List Fasta_entry)
    (names : List Str) :
    mergedCalls c fs false names
      = (mergedCalls c fs true names).flatMap (fun seq => [seq, c.revcomp seq]) := by
  unfold mergedCalls
  rw [flatMap_flatMap]
  have h : (fun name => (fs name).flatMap (fun fe => recordCalls c false fe.sequence))
      = fun name => ((fs name).flatMap (fun fe => recordCalls c true fe.sequence)).flatMap
          (fun seq => [seq, c.revcomp seq]) := by
    funext name
    rw [flatMap_flatMap]
    have h' : (fun fe : Fasta_entry => recordCalls c false fe.sequence)
        = fun fe => (recordCalls c true fe.sequence).flatMap
            (fun seq => [seq, c.revcomp seq]) := by
      funext fe
      exact recordCalls_not_sStrand c fe.sequence
    rw [h']
  rw [h]

/-- Counts of a fresh graph to which every forward string and its reverse
complement are added: they are symmetric with respect to strand. -/
theorem revcomp_pairs_symmetric (k : Nat) (hk : 1 ≤ k) (forward : List Str) :
    (∀ x, (forward.map (occurrences k x)).sum
        ≤ ((forward.flatMap (fun seq => [seq, revcomp seq])).foldl DeBruijnGraph.add_sequence
            (DeBruijnGraph.new k)).nodeCount (revcomp x))
    ∧ (∀ x, ((forward.flatMap (fun seq => [seq, revcomp seq])).foldl DeBruijnGraph.add_sequence
            (DeBruijnGraph.new k)).nodeCount x
        = ((forward.flatMap (fun seq => [seq, revcomp seq])).foldl DeBruijnGraph.add_sequence
            (DeBruijnGraph.new k)).nodeCount (revcomp x))
    ∧ (∀ x y, ((forward.flatMap (fun seq => [seq, revcomp seq])).foldl
            DeBruijnGraph.add_sequence (DeBruijnGraph.new k)).edgeCount x y
        = ((forward.flatMap (fun seq => [seq, revcomp seq])).foldl DeBruijnGraph.add_sequence
            (DeBruijnGraph.new k)).edgeCount (revcomp y) (revcomp x)) := by
  obtain ⟨h₁, h₂⟩ := fresh_graph_counts k hk
    (forward.flatMap (fun seq => [seq, revcomp seq]))
  have hnode : ∀ x, ((forward.flatMap (fun seq => [seq, revcomp seq])).foldl
      DeBruijnGraph.add_sequence (DeBruijnGraph.new k)).nodeCount x
      = (forward.map (fun seq => occurrences k x seq + occurrences k (revcomp x) seq)).sum := by
    intro x
    rw [h₁ x, sum_map_with_revcomp]
    congr 1
    apply List.map_congr_left
    intro seq _
    rw [occurrences_revcomp k hk]
  have hedge : ∀ x y, ((forward.flatMap (fun seq => [seq, revcomp seq])).foldl
      DeBruijnGraph.add_sequence (DeBruijnGraph.new k)).edgeCount x y
      = (forward.map (fun seq =>
          adjacencies k x y seq + adjacencies k (revcomp y) (revcomp x) seq)).sum := by
    intro x y
    rw [h₂ x y, sum_map_with_revcomp]
    congr 1
    apply List.map_congr_left
    intro seq _
    rw [adjacencies_revcomp]
  refine ⟨?_, ?_, ?_⟩
  · intro x
    rw [hnode (revcomp x), revcomp_revcomp]
    exact sum_map_le_sum_map_add _ _ _
  · intro x
    rw [hnode x, hnode (revcomp x), revcomp_revcomp]
    congr 1
    apply List.map_congr_left
    intro seq _
    exact Nat.add_comm _ _
  · intro x y
    rw [hedge x y, hedge (revcomp y) (revcomp x), revcomp_revcomp, revcomp_revcomp]
    congr 1
    apply List.map_congr_left
    intro seq _
    exact Nat.add_comm _ _

/-! ## The claims about what reaches the graph and what the graph counts -/

section SpecClaims

variable {G : Type}

/-- Whatever holds of every string a bundle adds holds of every string the
record loop of `createGraphPerRecord` adds, also when the loop stops early. -/
theorem perRecord_entries_added (c : Collaborators G) (P : Str → Prop)
    (hP : ∀ sStrand bundle, ∀ seq ∈ bundleCalls c sStrand bundle, P seq)
    (MONITOR : Nat) (kmer_length : Int) (sStrand : Bool) (args : ArgProcessor)
    (records : List Fasta_entry) (log : List Event) (hlog : ∀ seq ∈ addedSequences log, P seq) :
    ∀ seq ∈ addedSequences
      (createGraphPerRecord.entries c MONITOR kmer_length sStrand args log records).log,
      P seq := by
  induction records generalizing log with
  | nil => simpa [createGraphPerRecord.entries] using hlog
  | cons fe rest ih =>
    cases htok : secondToken c fe.accession with
    | none =>
      unfold secondToken at htok
      simp only [createGraphPerRecord.entries, htok]
      exact hlog
    | some token =>
      obtain ⟨evs, h, ha, _⟩ := perRecord_entries_cons c MONITOR kmer_length sStrand
        args log fe rest token htok
      obtain ⟨ka, _⟩ := serializationCall_facts args (atoi token) sStrand
      rw [h]
      apply ih
      intro seq hseq
      simp only [pair_eq_append, addedSequences_append, ha, ka] at hseq
      simp only [addedSequences, List.filterMap_cons, List.filterMap_nil, List.append_nil,
        List.mem_append] at hseq
      rcases hseq with hseq | hseq
      · exact hlog seq hseq
      · unfold recordCalls at hseq
        obtain ⟨bundle, _, hb⟩ := List.mem_flatMap.mp hseq
        exact hP sStrand bundle seq hb

theorem perRecord_files_added (c : Collaborators G) (P : Str → Prop)
    (hP : ∀ sStrand bundle, ∀ seq ∈ bundleCalls c sStrand bundle, P seq)
    (fs : Str → List Fasta_entry) (MONITOR : Nat) (kmer_length : Int) (sStrand : Bool)
    (args : ArgProcessor) (names : List Str) (log : List Event)
    (hlog : ∀ seq ∈ addedSequences log, P seq) :
    ∀ seq ∈ addedSequences
      (createGraphPerRecord.files c fs MONITOR kmer_length sStrand args log names).log,
      P seq := by
  induction names generalizing log with
  | nil => simpa [createGraphPerRecord.files] using hlog
  | cons name rest ih =>
    have hstep := perRecord_entries_added c P hP MONITOR kmer_length sStrand args
      (fs name) (log ++ fileEvents MONITOR name) (by
        intro seq hseq
        rw [addedSequences_append, (fileEvents_facts MONITOR name).1, List.append_nil] at hseq
        exact hlog seq hseq)
    simp only [createGraphPerRecord.files]
    rw [fileEvents_log]
    split
    · exact ih _ hstep
    · exact hstep

theorem isGATC_iff (ch : Char) :
    isGATC ch = true ↔ ch = 'A' ∨ ch = 'C' ∨ ch = 'G' ∨ ch = 'T' := by
  unfold isGATC
  simp only [Bool.or_eq_true, decide_eq_true_eq]
  tauto

/-- C9: in both modes and for every input, every string passed to
`add_sequence` (the forward bundle and its reverse complement alike) consists
only of the symbols A, C, G and T, and so does not contain the delimiter X;
the forward string of a bundle is the bundle with each character outside
A, C, G, T replaced by A. -/
theorem add_sequence_arguments_over_ACGT (toString : DeBruijnGraph → Str)
    (toChrysalisFormat : DeBruijnGraph → Int → Bool → Str) (fs : Str → List Fasta_entry)
    (MONITOR : Nat) (fasta_file_names : List Str) (kmer_length component_val : Int)
    (sStrand : Bool) (args : ArgProcessor) :
    (∀ seq ∈ addedSequences (constructDeBruijnGraph (specModel toString toChrysalisFormat) fs
        MONITOR fasta_file_names kmer_length component_val sStrand args).2,
      (∀ ch ∈ seq, ch = 'A' ∨ ch = 'C' ∨ ch = 'G' ∨ ch = 'T') ∧ 'X' ∉ seq)
    ∧ (∀ seq ∈ addedSequences (createGraphPerRecord (specModel toString toChrysalisFormat) fs
        MONITOR fasta_file_names kmer_length sStrand args).log,
      (∀ ch ∈ seq, ch = 'A' ∨ ch = 'C' ∨ ch = 'G' ∨ ch = 'T') ∧ 'X' ∉ seq)
    ∧ (∀ bundle, bundleCalls (specModel toString toChrysalisFormat) sStrand bundle
        = if sStrand then [bundle.map (fun ch => if isGATC ch then ch else 'A')]
          else [bundle.map (fun ch => if isGATC ch then ch else 'A'),
                revcomp (bundle.map (fun ch => if isGATC ch then ch else 'A'))]) := by
  have hP : ∀ sStrand bundle,
      ∀ seq ∈ bundleCalls (specModel toString toChrysalisFormat) sStrand bundle,
        (∀ ch ∈ seq, ch = 'A' ∨ ch = 'C' ∨ ch = 'G' ∨ ch = 'T') ∧ 'X' ∉ seq := by
    intro sStrand bundle seq hseq
    have h := bundleCalls_isGATC toString toChrysalisFormat sStrand bundle seq hseq
    refine ⟨fun ch hch => (isGATC_iff ch).mp (h ch hch), fun hX => ?_⟩
    have := h 'X' hX
    revert this
    decide
  refine ⟨?_, ?_, ?_⟩
  · obtain ⟨before, hm, _, ha, hcalls, _⟩ := merged_run_eq
      (specModel toString toChrysalisFormat) fs MONITOR fasta_file_names kmer_length
      component_val sStrand args
    intro seq hseq
    rw [hm] at hseq
    simp only [pair_eq_append, addedSequences_append, ha,
      (serializationCall_facts args component_val sStrand).1] at hseq
    simp only [addedSequences, List.filterMap_cons, List.filterMap_nil, List.append_nil]
      at hseq
    unfold mergedCalls at hseq
    obtain ⟨name, _, h₁⟩ := List.mem_flatMap.mp hseq
    obtain ⟨fe, _, h₂⟩ := List.mem_flatMap.mp h₁
    unfold recordCalls at h₂
    obtain ⟨bundle, _, h₃⟩ := List.mem_flatMap.mp h₂
    exact hP sStrand bundle seq h₃
  · exact perRecord_files_added (specModel toString toChrysalisFormat) _ hP fs
      MONITOR kmer_length sStrand args fasta_file_names [] (by simp [addedSequences])
  · intro bundle
    unfold bundleCalls
    rw [normalize_specModel]
    rfl

/-- C6: for k ≥ 1 and any list of sequences added to one fresh graph (as the
driver does in strand-specific mode, one call per bundle), the count of the
node of each k-mer x is the total number of positions of the sequences at which
x occurs as a substring of length k, and the count of each edge from x to y is
the total number of positions i with x at i and y at i+1; a sequence shorter
than k leaves the graph unchanged.  The record ACGTACGT with k = 4 in
strand-specific mode gives the nodes ACGT:2, CGTA:1, GTAC:1, TACG:1 and the
four edges ACGT to CGTA, CGTA to GTAC, GTAC to TACG, TACG to ACGT with count 1. -/
theorem add_sequence_counts_each_occurrence_once (k : Nat) (hk : 1 ≤ k) (seqs : List Str) :
    (∀ x, (seqs.foldl DeBruijnGraph.add_sequence (DeBruijnGraph.new k)).nodeCount x
        = (seqs.map (occurrences k x)).sum)
    ∧ (∀ x y, (seqs.foldl DeBruijnGraph.add_sequence (DeBruijnGraph.new k)).edgeCount x y
        = (seqs.map (adjacencies k x y)).sum)
    ∧ (∀ (g : DeBruijnGraph) (seq : Str), g.kmer_length = k → seq.length < k →
        g.add_sequence seq = g)
    ∧ (∀ (toString : DeBruijnGraph → Str) (toChrysalisFormat : DeBruijnGraph → Int → Bool → Str)
        (fs : Str → List Fasta_entry) (MONITOR : Nat) (fasta_file_names : List Str)
        (component_val : Int) (args : ArgProcessor),
        (constructDeBruijnGraph (specModel toString toChrysalisFormat) fs MONITOR
            fasta_file_names k component_val true args).1
          = (mergedCalls (specModel toString toChrysalisFormat) fs true
              fasta_file_names).foldl DeBruijnGraph.add_sequence (DeBruijnGraph.new k))
    ∧ (createGraphPerRecord.build exampleModel 0 4 true [] "ACGTACGT".toList).1
        = { kmer_length := 4,
            nodes := [("ACGT".toList, 2), ("CGTA".toList, 1), ("GTAC".toList, 1),
              ("TACG".toList, 1)],
            edges := [(("ACGT".toList, "CGTA".toList), 1), (("CGTA".toList, "GTAC".toList), 1),
              (("GTAC".toList, "TACG".toList), 1), (("TACG".toList, "ACGT".toList), 1)] } := by
  obtain ⟨h₁, h₂⟩ := fresh_graph_counts k hk seqs
  refine ⟨h₁, h₂, ?_, ?_, by decide⟩
  · intro g seq hg hlen
    exact add_sequence_short g seq (by rw [hg]; exact_mod_cast hlen)
  · intro toString toChrysalisFormat fs MONITOR fasta_file_names component_val args
    obtain ⟨before, hm, _⟩ := merged_run_eq
      (specModel toString toChrysalisFormat) fs MONITOR fasta_file_names k component_val true
      args
    rw [hm]
    rfl

/-- Witness of C6: k = 4 and the single sequence ACGTACGT. -/
theorem add_sequence_counts_each_occurrence_once_witness :
    1 ≤ 4
    ∧ (["ACGTACGT".toList].foldl DeBruijnGraph.add_sequence (DeBruijnGraph.new (4 : Nat))).nodeCount
        "ACGT".toList = (["ACGTACGT".toList].map (occurrences 4 "ACGT".toList)).sum
    ∧ (["ACGTACGT".toList].map (occurrences 4 "ACGT".toList)).sum = 2 :=
  ⟨by decide,
    (add_sequence_counts_each_occurrence_once 4 (by decide) ["ACGTACGT".toList]).1 "ACGT".toList,
    by decide⟩

/-- C4: for every record sequence and every k ≥ 1, the counts of the graph
built from the record are the sums of the counts of the graphs built from each
of its X-separated sub-sequences alone; every node is a k-mer without the
delimiter that lies inside one string added for one sub-sequence (the
normalized sub-sequence or its reverse complement), and every edge joins two
k-mers at consecutive positions of one such string.  The record AAAAXTTTT in
strand-specific mode gives, with k = 2, exactly the nodes AA:3, TT:3 and the
edges AA to AA:2, TT to TT:2 (none between AA and TT), and with k = 3 only the
edges AAA to AAA and TTT to TTT. -/
theorem delimiter_isolation (toString : DeBruijnGraph → Str)
    (toChrysalisFormat : DeBruijnGraph → Int → Bool → Str) (MONITOR : Nat) (k : Nat)
    (hk : 1 ≤ k) (sStrand : Bool) (sequence : Str) :
    (∀ x, (createGraphPerRecord.build (specModel toString toChrysalisFormat) MONITOR k sStrand []
          sequence).1.nodeCount x
        = ((tokenize sequence "X".toList).map (fun bundle =>
            (createGraphPerRecord.build (specModel toString toChrysalisFormat) MONITOR k sStrand
              [] bundle).1.nodeCount x)).sum)
    ∧ (∀ x y, (createGraphPerRecord.build (specModel toString toChrysalisFormat) MONITOR k
          sStrand [] sequence).1.edgeCount x y
        = ((tokenize sequence "X".toList).map (fun bundle =>
            (createGraphPerRecord.build (specModel toString toChrysalisFormat) MONITOR k sStrand
              [] bundle).1.edgeCount x y)).sum)
    ∧ (∀ x, 0 < (createGraphPerRecord.build (specModel toString toChrysalisFormat) MONITOR k
          sStrand [] sequence).1.nodeCount x →
        'X' ∉ x ∧ ∃ bundle ∈ tokenize sequence "X".toList,
          ∃ seq ∈ bundleCalls (specModel toString toChrysalisFormat) sStrand bundle,
            ∃ i, i + k ≤ seq.length ∧ substr seq i k = x)
    ∧ (∀ x y, 0 < (createGraphPerRecord.build (specModel toString toChrysalisFormat) MONITOR k
          sStrand [] sequence).1.edgeCount x y →
        ∃ bundle ∈ tokenize sequence "X".toList,
          ∃ seq ∈ bundleCalls (specModel toString toChrysalisFormat) sStrand bundle,
            ∃ i, i + 1 + k ≤ seq.length ∧ substr seq i k = x ∧ substr seq (i + 1) k = y)
    ∧ (createGraphPerRecord.build exampleModel 0 2 true [] "AAAAXTTTT".toList).1
        = { kmer_length := 2,
            nodes := [("AA".toList, 3), ("TT".toList, 3)],
            edges := [(("AA".toList, "AA".toList), 2), (("TT".toList, "TT".toList), 2)] }
    ∧ (createGraphPerRecord.build exampleModel 0 3 true [] "AAAAXTTTT".toList).1.edges
        = [(("AAA".toList, "AAA".toList), 1), (("TTT".toList, "TTT".toList), 1)] := by
  have hgraph : ∀ s, (createGraphPerRecord.build (specModel toString toChrysalisFormat) MONITOR
      k sStrand [] s).1
      = (recordCalls (specModel toString toChrysalisFormat) sStrand s).foldl
          DeBruijnGraph.add_sequence (DeBruijnGraph.new k) := by
    intro s
    obtain ⟨evs, h, _⟩ := perRecord_build_eq (specModel toString toChrysalisFormat)
      MONITOR k sStrand [] s
    rw [h]; rfl
  have hrec : ∀ s, recordCalls (specModel toString toChrysalisFormat) sStrand s
      = (tokenize s "X".toList).flatMap
          (bundleCalls (specModel toString toChrysalisFormat) sStrand) := fun _ => rfl
  have hone : ∀ bundle ∈ tokenize sequence "X".toList,
      recordCalls (specModel toString toChrysalisFormat) sStrand bundle
        = bundleCalls (specModel toString toChrysalisFormat) sStrand bundle := by
    intro bundle hb
    rw [hrec, tokenize_token sequence _ bundle hb]
    simp
  have hnode : ∀ s x, (createGraphPerRecord.build (specModel toString toChrysalisFormat)
      MONITOR k sStrand [] s).1.nodeCount x
      = ((recordCalls (specModel toString toChrysalisFormat) sStrand s).map
          (occurrences k x)).sum := by
    intro s x; rw [hgraph]; exact (fresh_graph_counts k hk _).1 x
  have hedge : ∀ s x y, (createGraphPerRecord.build (specModel toString toChrysalisFormat)
      MONITOR k sStrand [] s).1.edgeCount x y
      = ((recordCalls (specModel toString toChrysalisFormat) sStrand s).map
          (adjacencies k x y)).sum := by
    intro s x y; rw [hgraph]; exact (fresh_graph_counts k hk _).2 x y
  refine ⟨?_, ?_, ?_, ?_, by decide, by decide⟩
  · intro x
    rw [hnode, hrec, sum_map_flatMap]
    congr 1
    apply List.map_congr_left
    intro bundle hb
    rw [hnode, hone bundle hb]
  · intro x y
    rw [hedge, hrec, sum_map_flatMap]
    congr 1
    apply List.map_congr_left
    intro bundle hb
    rw [hedge, hone bundle hb]
  · intro x hx
    rw [hnode, hrec] at hx
    obtain ⟨seq, hseq, hpos⟩ := exists_pos_of_sum_pos _ _ hx
    obtain ⟨bundle, hb, hmem⟩ := List.mem_flatMap.mp hseq
    obtain ⟨i, hi, hsub⟩ := occurrences_pos k x seq hpos
    refine ⟨?_, bundle, hb, seq, hmem, i, hi, hsub⟩
    intro hX
    have hin : 'X' ∈ seq := by
      rw [← hsub] at hX
      exact List.mem_of_mem_drop (List.mem_of_mem_take hX)
    have := bundleCalls_isGATC toString toChrysalisFormat sStrand bundle seq hmem 'X' hin
    revert this
    decide
  · intro x y hxy
    rw [hedge, hrec] at hxy
    obtain ⟨seq, hseq, hpos⟩ := exists_pos_of_sum_pos _ _ hxy
    obtain ⟨bundle, hb, hmem⟩ := List.mem_flatMap.mp hseq
    obtain ⟨i, hi⟩ := adjacencies_pos k x y seq hpos
    exact ⟨bundle, hb, seq, hmem, i, hi⟩

/-- C5: when strand-specific is false, for every input and every k ≥ 1, in the
graph built in merged mode and in the graph built for one record in per-record
mode alike, the count of the node of the reverse complement of x is at least
the number of occurrences of x in the forward (normalized) bundles, the nodes
of x and of its reverse complement have the same count, and the edge from x to
y has the same count as the edge from the reverse complement of y to the
reverse complement of x. -/
theorem strand_symmetry (toString : DeBruijnGraph → Str)
    (toChrysalisFormat : DeBruijnGraph → Int → Bool → Str) (fs : Str → List Fasta_entry)
    (MONITOR : Nat) (fasta_file_names : List Str) (k : Nat) (hk : 1 ≤ k) (component_val : Int)
    (args : ArgProcessor) (sequence : Str) :
    ((∀ x, ((mergedCalls (specModel toString toChrysalisFormat) fs true fasta_file_names).map
            (occurrences k x)).sum
          ≤ (constructDeBruijnGraph (specModel toString toChrysalisFormat) fs MONITOR
              fasta_file_names k component_val false args).1.nodeCount (revcomp x))
      ∧ (∀ x, (constructDeBruijnGraph (specModel toString toChrysalisFormat) fs MONITOR
              fasta_file_names k component_val false args).1.nodeCount x
          = (constructDeBruijnGraph (specModel toString toChrysalisFormat) fs MONITOR
              fasta_file_names k component_val false args).1.nodeCount (revcomp x))
      ∧ (∀ x y, (constructDeBruijnGraph (specModel toString toChrysalisFormat) fs MONITOR
              fasta_file_names k component_val false args).1.edgeCount x y
          = (constructDeBruijnGraph (specModel toString toChrysalisFormat) fs MONITOR
              fasta_file_names k component_val false args).1.edgeCount (revcomp y) (revcomp x)))
    ∧ ((∀ x, ((recordCalls (specModel toString toChrysalisFormat) true sequence).map
            (occurrences k x)).sum
          ≤ (createGraphPerRecord.build (specModel toString toChrysalisFormat) MONITOR k false
              [] sequence).1.nodeCount (revcomp x))
      ∧ (∀ x, (createGraphPerRecord.build (specModel toString toChrysalisFormat) MONITOR k false
              [] sequence).1.nodeCount x
          = (createGraphPerRecord.build (specModel toString toChrysalisFormat) MONITOR k false
              [] sequence).1.nodeCount (revcomp x))
      ∧ (∀ x y, (createGraphPerRecord.build (specModel toString toChrysalisFormat) MONITOR k
              false [] sequence).1.edgeCount x y
          = (createGraphPerRecord.build (specModel toString toChrysalisFormat) MONITOR k false
              [] sequence).1.edgeCount (revcomp y) (revcomp x))) := by
  constructor
  · obtain ⟨before, hm, _⟩ := merged_run_eq
      (specModel toString toChrysalisFormat) fs MONITOR fasta_file_names k component_val false
      args
    rw [hm, mergedCalls_not_sStrand]
    exact revcomp_pairs_symmetric k hk _
  · obtain ⟨evs, hb, _⟩ := perRecord_build_eq
      (specModel toString toChrysalisFormat) MONITOR k false [] sequence
    rw [hb]
    unfold recordGraph
    rw [recordCalls_not_sStrand]
    exact revcomp_pairs_symmetric k hk _

/-- Witness of C5: the record ACGGXTT with k = 2. -/
theorem strand_symmetry_witness :
    1 ≤ 2
    ∧ (createGraphPerRecord.build exampleModel 0 2 false [] "ACGGXTT".toList).1.nodeCount
        "CC".toList
      = (createGraphPerRecord.build exampleModel 0 2 false [] "ACGGXTT".toList).1.nodeCount
        (revcomp "CC".toList)
    ∧ (createGraphPerRecord.build exampleModel 0 2 false [] "ACGGXTT".toList).1.nodeCount
        "CC".toList = 1 :=
  ⟨by decide,
    (strand_symmetry exampleToString exampleToChrysalisFormat (exampleFiles []) 0 [] 2
      (by decide) 0 (exampleArgs []) "ACGGXTT".toList).2.2.1 "CC".toList,
    by decide⟩

/-- Witness of C4: the record AAAAXTTTT with k = 2 in strand-specific mode. -/
theorem delimiter_isolation_witness :
    1 ≤ 2
    ∧ (createGraphPerRecord.build exampleModel 0 2 true [] "AAAAXTTTT".toList).1.nodeCount
        "AA".toList
      = ((tokenize "AAAAXTTTT".toList "X".toList).map (fun bundle =>
          (createGraphPerRecord.build exampleModel 0 2 true [] bundle).1.nodeCount
            "AA".toList)).sum
    ∧ tokenize "AAAAXTTTT".toList "X".toList = ["AAAA".toList, "TTTT".toList]
    ∧ (createGraphPerRecord.build exampleModel 0 2 true [] "AAAAXTTTT".toList).1.edgeCount
        "AA".toList "TT".toList = 0
    ∧ (createGraphPerRecord.build exampleModel 0 2 true [] "AAAAXTTTT".toList).1.nodeCount
        "AT".toList = 0 :=
  ⟨by decide,
    (delimiter_isolation exampleToString exampleToChrysalisFormat 0 2 (by decide) true
      "AAAAXTTTT".toList).1 "AA".toList,
    by decide, by decide, by decide⟩

end SpecClaims

end Inchworm
